import Mathlib

/-!
Shallow embedding of the capture-and-deduplication core of
`zoom_auto_capture/screenshot.py` (class `ScreenshotCapture`).

Images are represented by their two fingerprints: the exact (SHA-256) hash
and the perceptual (average) hash, both modelled as naturals.  File paths
are naturals; the timestamp-derived fresh filename generator is modelled by
the `next_path` counter.  The file system is a list of existing paths plus
an oracle describing, for each path, whether `Path.unlink` succeeds
(`none`), raises `FileNotFoundError` (`some true`) or raises any other
error (`some false`).  The float `change_threshold` is modelled as a
rational; `int()` on the non-negative products that occur here is `Int.floor`
(for negative products the clamp `max 0 _` makes floor and truncation agree).
The `saves` field is a ghost log of save events (observable in the source
through the debug log and status emission of `_save_screenshot`).
-/

namespace ZoomCapture

/-- Constructor arguments of `ScreenshotCapture` that the dedup logic reads:
`hash_size`, `change_threshold`, `stability_samples`. -/
structure Config where
  hash_size : Nat
  change_threshold : ℚ
  stability_samples : Nat

/-- `SavedScreenshotInfo` dataclass: path plus both fingerprints. -/
structure SavedScreenshotInfo where
  path : Nat
  exact_hash : Nat
  perceptual_hash : Nat
deriving DecidableEq, Repr

/-- File-system model: the set of existing paths (as a list) and, per path,
the outcome of `Path.unlink`: `none` = success, `some true` =
`FileNotFoundError`, `some false` = any other error. -/
structure FileSystem where
  files : List Nat
  unlinkErr : Nat → Option Bool

/-- The mutable per-session state of `ScreenshotCapture`.
`saved_screenshots` is the insertion-ordered dict `_saved_screenshots`
(Python dicts preserve insertion order); `saves` is the ghost log of save
events. -/
structure CaptureState where
  running : Bool
  screenshot_count : Nat
  last_screenshot_path : Option Nat
  last_hash : Option Nat
  saved_screenshots : List SavedScreenshotInfo
  pending_hash : Option Nat
  pending_perceptual_hash : Option Nat
  pending_count : Nat
  next_path : Nat
  saves : List Nat
  fs : FileSystem

/-- A captured frame, abstracted to its two fingerprints
(`_compute_exact_hash` / `_compute_perceptual_hash` results). -/
structure Frame where
  exact_hash : Nat
  perceptual_hash : Nat

/-- Population count of a natural, by repeated division; the first argument
is fuel (any fuel `≥ n` computes the true popcount of `n`). -/
def popCountGo : Nat → Nat → Nat
  | 0, _ => 0
  | _ + 1, 0 => 0
  | fuel + 1, m => m % 2 + popCountGo fuel (m / 2)

/-- `int.bit_count()`: number of set bits. -/
def popCount (n : Nat) : Nat := popCountGo n n

/-- `_similarity_bit_threshold`:
`total_bits = max(1, hash_size ** 2)`; `threshold = int(total_bits * change_threshold)`;
result `max(0, min(total_bits, threshold))`. -/
def similarityBitThreshold (cfg : Config) : Nat :=
  let total_bits : Nat := max 1 (cfg.hash_size * cfg.hash_size)
  let threshold : Int := Int.floor ((total_bits : ℚ) * cfg.change_threshold)
  (max 0 (min (total_bits : Int) threshold)).toNat

/-- `_are_hashes_similar`: `False` when the threshold is `0`, otherwise
`(hash_a ^ hash_b).bit_count() <= threshold`. -/
def areHashesSimilar (cfg : Config) (hash_a hash_b : Nat) : Bool :=
  let threshold := similarityBitThreshold cfg
  if threshold = 0 then false
  else popCount (Nat.xor hash_a hash_b) ≤ threshold

/-- `_find_similar_screenshots`: empty for an empty index or a zero
threshold, else the records whose perceptual hash is similar. -/
def findSimilarScreenshots (cfg : Config) (index : List SavedScreenshotInfo)
    (perceptual_hash : Nat) : List SavedScreenshotInfo :=
  if index.isEmpty then []
  else if similarityBitThreshold cfg = 0 then []
  else index.filter (fun info => areHashesSimilar cfg info.perceptual_hash perceptual_hash)

/-- `_delete_file_safely`: `unlink(missing_ok=True)`; `FileNotFoundError`
is success, any other exception is failure and leaves the file. -/
def deleteFileSafely (fs : FileSystem) (path : Nat) : Bool × FileSystem :=
  match fs.unlinkErr path with
  | none => (true, { fs with files := fs.files.erase path })
  | some true => (true, fs)
  | some false => (false, fs)

/-- One iteration of the loop of `_remove_saved_screenshots`: pop the
record with the given exact hash (skip when absent), delete its file, and
clear `_last_screenshot_path` when it pointed at the deleted file. -/
def removeOne (st : CaptureState) (info : SavedScreenshotInfo) : CaptureState :=
  if st.saved_screenshots.any (fun i => i.exact_hash == info.exact_hash) then
    let existing := ((st.saved_screenshots.find?
      (fun i => i.exact_hash == info.exact_hash)).getD info)
    { st with
      saved_screenshots :=
        st.saved_screenshots.filter (fun i => !(i.exact_hash == info.exact_hash)),
      fs := (deleteFileSafely st.fs existing.path).2,
      last_screenshot_path :=
        if st.last_screenshot_path = some existing.path then none
        else st.last_screenshot_path }
  else st

/-- `_remove_saved_screenshots`. -/
def removeSavedScreenshots (st : CaptureState)
    (infos : List SavedScreenshotInfo) : CaptureState :=
  infos.foldl removeOne st

/-- Python `dict[key] = value`: replace in place when the key exists,
append otherwise. -/
def indexInsert (index : List SavedScreenshotInfo)
    (info : SavedScreenshotInfo) : List SavedScreenshotInfo :=
  if index.any (fun i => i.exact_hash == info.exact_hash) then
    index.map (fun i => if i.exact_hash == info.exact_hash then info else i)
  else index ++ [info]

/-- `_prepare_for_new_screenshot`: remove any record with the same exact
hash and any perceptually-similar records. -/
def prepareForNewScreenshot (cfg : Config) (st : CaptureState)
    (current_hash perceptual_hash : Nat) : CaptureState :=
  let existing := st.saved_screenshots.filter (fun i => i.exact_hash == current_hash)
  let similar := findSimilarScreenshots cfg st.saved_screenshots perceptual_hash
  removeSavedScreenshots st (existing ++ similar)

/-- `_save_screenshot`: evict superseded records, write the file (fresh
timestamp-derived name), bump the count, update last path/hash, insert the
new record, and log the save event. -/
def saveScreenshot (cfg : Config) (st : CaptureState)
    (current_hash perceptual_hash : Nat) : CaptureState :=
  let path := st.next_path
  let st1 := prepareForNewScreenshot cfg st current_hash perceptual_hash
  { st1 with
    fs := { st1.fs with
      files := if st1.fs.files.contains path then st1.fs.files
               else st1.fs.files ++ [path] },
    screenshot_count := st1.screenshot_count + 1,
    last_screenshot_path := some path,
    last_hash := some current_hash,
    saved_screenshots :=
      indexInsert st1.saved_screenshots ⟨path, current_hash, perceptual_hash⟩,
    next_path := st1.next_path + 1,
    saves := st1.saves ++ [current_hash] }

/-- `_reset_pending`. -/
def resetPending (st : CaptureState) (current_hash : Nat) : CaptureState :=
  { st with
    pending_hash := none,
    pending_perceptual_hash := none,
    pending_count := 0,
    last_hash := some current_hash }

/-- The stability state machine of `_capture_and_check_stability`
(lines 245–265): start tracking when no candidate is pending, count a
continuation when the new frame matches the candidate exactly or
perceptually, otherwise restart tracking at the new frame. -/
def stabilityUpdate (cfg : Config) (st : CaptureState)
    (current_hash perceptual_hash : Nat) : CaptureState :=
  match st.pending_hash with
  | none =>
    { st with
      pending_hash := some current_hash,
      pending_perceptual_hash := some perceptual_hash,
      pending_count := 1 }
  | some pending =>
    if pending == current_hash then
      { st with pending_count := st.pending_count + 1 }
    else if (match st.pending_perceptual_hash with
             | some pph => areHashesSimilar cfg pph perceptual_hash
             | none => false) then
      { st with pending_count := st.pending_count + 1 }
    else
      { st with
        pending_hash := some current_hash,
        pending_perceptual_hash := some perceptual_hash,
        pending_count := 1 }

/-- `_capture_and_check_stability`, given the current frame's fingerprints:
already-saved check, eviction of similar records, the stability state
machine, and the save on reaching `stability_samples`. -/
def tick (cfg : Config) (st : CaptureState) (f : Frame) : CaptureState :=
  let current_hash := f.exact_hash
  let perceptual_hash := f.perceptual_hash
  if st.saved_screenshots.any (fun i => i.exact_hash == current_hash) then
    resetPending st current_hash
  else
    let st1 := removeSavedScreenshots st
      (findSimilarScreenshots cfg st.saved_screenshots perceptual_hash)
    let st2 := stabilityUpdate cfg st1 current_hash perceptual_hash
    if cfg.stability_samples ≤ st2.pending_count then
      let st3 := saveScreenshot cfg st2 current_hash perceptual_hash
      { st3 with
        pending_hash := none,
        pending_perceptual_hash := none,
        pending_count := 0 }
    else st2

/-- Iterated ticks. -/
def runTicks (cfg : Config) (st : CaptureState) (frames : List Frame) : CaptureState :=
  frames.foldl (tick cfg) st

/-- A pre-existing PNG found by the startup scan: its path, whether its
hashes could be read (the `try/except` in `_load_existing_hashes`), and its
two fingerprints. -/
structure ExistingFile where
  path : Nat
  hash_ok : Bool
  exact_hash : Nat
  perceptual_hash : Nat

/-- One iteration of the scan loop of `_load_existing_hashes`: skip
unreadable files, delete exact duplicates of records built so far,
otherwise add the record. -/
def loadScanStep (st : CaptureState) (f : ExistingFile) : CaptureState :=
  if !f.hash_ok then st
  else if st.saved_screenshots.any (fun i => i.exact_hash == f.exact_hash) then
    { st with fs := (deleteFileSafely st.fs f.path).2 }
  else
    { st with saved_screenshots :=
        st.saved_screenshots ++ [⟨f.path, f.exact_hash, f.perceptual_hash⟩] }

/-- The mark-collection loop of `_prune_existing_similar_screenshots`:
a record is marked when some earlier record is perceptually similar to it;
`priors` accumulates the records already passed. -/
def pruneMarkedAux (cfg : Config) :
    List SavedScreenshotInfo → List SavedScreenshotInfo → List SavedScreenshotInfo
  | _, [] => []
  | priors, c :: rest =>
    if priors.any (fun prior => areHashesSimilar cfg c.perceptual_hash prior.perceptual_hash) then
      c :: pruneMarkedAux cfg (priors ++ [c]) rest
    else
      pruneMarkedAux cfg (priors ++ [c]) rest

/-- `_prune_existing_similar_screenshots` (state part; the source also
returns the number of removals). -/
def pruneExistingSimilarScreenshots (cfg : Config) (st : CaptureState) : CaptureState :=
  if st.saved_screenshots.isEmpty then st
  else removeSavedScreenshots st (pruneMarkedAux cfg [] st.saved_screenshots)

/-- `_load_existing_hashes`: the scan pass over the directory's PNG files
in sorted order, then the prune pass. -/
def loadExistingHashes (cfg : Config) (st : CaptureState)
    (existing : List ExistingFile) : CaptureState :=
  pruneExistingSimilarScreenshots cfg (existing.foldl loadScanStep st)

/-- The per-session reset performed by `start` before reseeding
(lines 117–122 of the source): note that `_pending_count` is NOT reset. -/
def sessionReset (st : CaptureState) : CaptureState :=
  { st with
    screenshot_count := 0,
    last_screenshot_path := none,
    last_hash := none,
    saved_screenshots := [],
    pending_hash := none,
    pending_perceptual_hash := none }

/-- `start`: no-op when already running, otherwise reset the per-session
state, reseed the index from the files already on disk, and mark the
session running. `existing` is the sorted PNG listing of the target
directory. -/
def start (cfg : Config) (st : CaptureState) (existing : List ExistingFile) : CaptureState :=
  if st.running then st
  else
    { loadExistingHashes cfg (sessionReset st) existing with running := true }

/-- The effective perceptual grid side: `size = max(4, hash_size)` in
`_compute_perceptual_hash`. -/
def effectiveGridSize (hash_size : Nat) : Nat := max 4 hash_size

/-- The bit-packing loop of `_compute_perceptual_hash`:
`bits = (bits << 1) | (1 if pixel >= avg else 0)`. -/
def packBits (avg : ℚ) (pixels : List Nat) : Nat :=
  pixels.foldl (fun (bits : Nat) (pixel : Nat) =>
    bits * 2 + (if avg ≤ (pixel : ℚ) then 1 else 0)) 0

/-- `_compute_perceptual_hash`, given the grayscale pixel data of the image
resized to `effectiveGridSize × effectiveGridSize` (the resize itself is the
imaging library's job): threshold every pixel against the mean. -/
def computePerceptualHash (pixels : List Nat) : Nat :=
  let avg : ℚ := ((pixels.map (fun p => (p : ℚ))).sum) / (pixels.length : ℚ)
  packBits avg pixels

/-- Modelled from the claim's formula (for comparison with the source's
`similarityBitThreshold`): the bit-threshold computed from `hash_size²`
total bits, `floor(hash_size² × change_ratio)` clamped to `[0, hash_size²]`. -/
def claimedSimilarityBitThreshold (cfg : Config) : Nat :=
  let total_bits : Nat := cfg.hash_size * cfg.hash_size
  let threshold : Int := Int.floor ((total_bits : ℚ) * cfg.change_threshold)
  (max 0 (min (total_bits : Int) threshold)).toNat

/-- The archive-index invariant stated by the spec: any two records with
distinct exact fingerprints are at Hamming distance strictly above the
similarity bit-threshold. -/
def indexInvariant (cfg : Config) (index : List SavedScreenshotInfo) : Prop :=
  ∀ r1 ∈ index, ∀ r2 ∈ index, r1.exact_hash ≠ r2.exact_hash →
    similarityBitThreshold cfg < popCount (Nat.xor r1.perceptual_hash r2.perceptual_hash)

/-- Well-formedness of a reachable capture state: exact hashes are unique
index keys, record paths are distinct, the on-disk files are exactly the
records' files, all record paths predate the fresh-name counter, and file
deletion does not fail. -/
def wellFormed (st : CaptureState) : Prop :=
  (st.saved_screenshots.map SavedScreenshotInfo.exact_hash).Nodup ∧
  (st.saved_screenshots.map SavedScreenshotInfo.path).Nodup ∧
  st.fs.files = st.saved_screenshots.map SavedScreenshotInfo.path ∧
  (∀ r ∈ st.saved_screenshots, r.path < st.next_path) ∧
  (∀ p, st.fs.unlinkErr p = none)

/-- A running session holding one archived record, used to exercise the
operations on concrete inputs. -/
def sampleState : CaptureState :=
  { running := true
    screenshot_count := 1
    last_screenshot_path := some 0
    last_hash := some 5
    saved_screenshots := [⟨0, 5, 7⟩]
    pending_hash := none
    pending_perceptual_hash := none
    pending_count := 0
    next_path := 1
    saves := [5]
    fs := { files := [0], unlinkErr := fun _ => none } }

/-- A fresh session state: nothing saved, nothing pending, empty disk. -/
def initState : CaptureState :=
  { running := false
    screenshot_count := 0
    last_screenshot_path := none
    last_hash := none
    saved_screenshots := []
    pending_hash := none
    pending_perceptual_hash := none
    pending_count := 0
    next_path := 0
    saves := []
    fs := { files := [], unlinkErr := fun _ => none } }

/-! ### Basic lemmas about the embedded operations -/

theorem natXor_comm (a b : Nat) : Nat.xor a b = Nat.xor b a :=
  Nat.xor_comm a b

theorem areHashesSimilar_comm (cfg : Config) (a b : Nat) :
    areHashesSimilar cfg a b = areHashesSimilar cfg b a := by
  unfold areHashesSimilar
  rw [natXor_comm]

theorem similar_false_of_threshold_zero (cfg : Config)
    (h : similarityBitThreshold cfg = 0) (a b : Nat) :
    areHashesSimilar cfg a b = false := by
  simp [areHashesSimilar, h]

theorem threshold_lt_of_similar_false (cfg : Config) (a b : Nat)
    (hth : similarityBitThreshold cfg ≠ 0)
    (h : areHashesSimilar cfg a b = false) :
    similarityBitThreshold cfg < popCount (Nat.xor a b) := by
  simp only [areHashesSimilar, if_neg hth, decide_eq_false_iff_not, not_le] at h
  exact h

@[simp] theorem removeOne_pending_hash (st : CaptureState) (i : SavedScreenshotInfo) :
    (removeOne st i).pending_hash = st.pending_hash := by
  unfold removeOne; split <;> rfl

@[simp] theorem removeOne_pending_pph (st : CaptureState) (i : SavedScreenshotInfo) :
    (removeOne st i).pending_perceptual_hash = st.pending_perceptual_hash := by
  unfold removeOne; split <;> rfl

@[simp] theorem removeOne_pending_count (st : CaptureState) (i : SavedScreenshotInfo) :
    (removeOne st i).pending_count = st.pending_count := by
  unfold removeOne; split <;> rfl

@[simp] theorem removeOne_saves (st : CaptureState) (i : SavedScreenshotInfo) :
    (removeOne st i).saves = st.saves := by
  unfold removeOne; split <;> rfl

@[simp] theorem removeOne_count (st : CaptureState) (i : SavedScreenshotInfo) :
    (removeOne st i).screenshot_count = st.screenshot_count := by
  unfold removeOne; split <;> rfl

@[simp] theorem removeOne_next_path (st : CaptureState) (i : SavedScreenshotInfo) :
    (removeOne st i).next_path = st.next_path := by
  unfold removeOne; split <;> rfl

@[simp] theorem removeOne_running (st : CaptureState) (i : SavedScreenshotInfo) :
    (removeOne st i).running = st.running := by
  unfold removeOne; split <;> rfl

@[simp] theorem removeOne_unlinkErr (st : CaptureState) (i : SavedScreenshotInfo) :
    (removeOne st i).fs.unlinkErr = st.fs.unlinkErr := by
  unfold removeOne deleteFileSafely
  split
  · rename_i h
    rcases hu : st.fs.unlinkErr
      (((st.saved_screenshots.find? fun j => j.exact_hash == i.exact_hash).getD i).path) with _ | b
    · simp [hu]
    · cases b <;> simp [hu]
  · rfl

@[simp] theorem removeOne_saved (st : CaptureState) (i : SavedScreenshotInfo) :
    (removeOne st i).saved_screenshots =
      st.saved_screenshots.filter (fun r => !(r.exact_hash == i.exact_hash)) := by
  unfold removeOne
  split
  · rfl
  · rename_i h
    rw [List.any_eq_true] at h
    push_neg at h
    refine (List.filter_eq_self.mpr ?_).symm
    intro a ha
    simpa using h a ha

@[simp] theorem removeSaved_pending_hash (infos : List SavedScreenshotInfo) :
    ∀ st : CaptureState, (removeSavedScreenshots st infos).pending_hash = st.pending_hash := by
  induction infos with
  | nil => intro st; rfl
  | cons i is ih => intro st; simpa [removeSavedScreenshots] using ih (removeOne st i)

@[simp] theorem removeSaved_pending_pph (infos : List SavedScreenshotInfo) :
    ∀ st : CaptureState,
      (removeSavedScreenshots st infos).pending_perceptual_hash = st.pending_perceptual_hash := by
  induction infos with
  | nil => intro st; rfl
  | cons i is ih => intro st; simpa [removeSavedScreenshots] using ih (removeOne st i)

@[simp] theorem removeSaved_pending_count (infos : List SavedScreenshotInfo) :
    ∀ st : CaptureState, (removeSavedScreenshots st infos).pending_count = st.pending_count := by
  induction infos with
  | nil => intro st; rfl
  | cons i is ih => intro st; simpa [removeSavedScreenshots] using ih (removeOne st i)

@[simp] theorem removeSaved_saves (infos : List SavedScreenshotInfo) :
    ∀ st : CaptureState, (removeSavedScreenshots st infos).saves = st.saves := by
  induction infos with
  | nil => intro st; rfl
  | cons i is ih => intro st; simpa [removeSavedScreenshots] using ih (removeOne st i)

@[simp] theorem removeSaved_count (infos : List SavedScreenshotInfo) :
    ∀ st : CaptureState,
      (removeSavedScreenshots st infos).screenshot_count = st.screenshot_count := by
  induction infos with
  | nil => intro st; rfl
  | cons i is ih => intro st; simpa [removeSavedScreenshots] using ih (removeOne st i)

@[simp] theorem removeSaved_next_path (infos : List SavedScreenshotInfo) :
    ∀ st : CaptureState, (removeSavedScreenshots st infos).next_path = st.next_path := by
  induction infos with
  | nil => intro st; rfl
  | cons i is ih => intro st; simpa [removeSavedScreenshots] using ih (removeOne st i)

@[simp] theorem removeSaved_running (infos : List SavedScreenshotInfo) :
    ∀ st : CaptureState, (removeSavedScreenshots st infos).running = st.running := by
  induction infos with
  | nil => intro st; rfl
  | cons i is ih => intro st; simpa [removeSavedScreenshots] using ih (removeOne st i)

@[simp] theorem removeSaved_unlinkErr (infos : List SavedScreenshotInfo) :
    ∀ st : CaptureState, (removeSavedScreenshots st infos).fs.unlinkErr = st.fs.unlinkErr := by
  induction infos with
  | nil => intro st; rfl
  | cons i is ih => intro st; simpa [removeSavedScreenshots] using ih (removeOne st i)

theorem removeSaved_saved (infos : List SavedScreenshotInfo) :
    ∀ st : CaptureState,
      (removeSavedScreenshots st infos).saved_screenshots =
        st.saved_screenshots.filter
          (fun r => !(infos.any (fun i => r.exact_hash == i.exact_hash))) := by
  induction infos with
  | nil =>
    intro st
    simp [removeSavedScreenshots]
  | cons i is ih =>
    intro st
    rw [removeSavedScreenshots, List.foldl_cons]
    have h1 := ih (removeOne st i)
    rw [removeSavedScreenshots] at h1
    rw [h1, removeOne_saved, List.filter_filter]
    apply List.filter_congr
    intro a _
    by_cases hb : a.exact_hash = i.exact_hash <;> simp [hb, Bool.and_comm]

theorem mem_of_mem_removeSaved {infos : List SavedScreenshotInfo} {st : CaptureState}
    {r : SavedScreenshotInfo}
    (h : r ∈ (removeSavedScreenshots st infos).saved_screenshots) :
    r ∈ st.saved_screenshots := by
  rw [removeSaved_saved] at h
  exact (List.mem_filter.mp h).1

theorem key_excluded_of_removeSaved {infos : List SavedScreenshotInfo} {st : CaptureState}
    {r i : SavedScreenshotInfo} (hi : i ∈ infos)
    (h : r ∈ (removeSavedScreenshots st infos).saved_screenshots) :
    r.exact_hash ≠ i.exact_hash := by
  rw [removeSaved_saved] at h
  have h2 := (List.mem_filter.mp h).2
  simp only [Bool.not_eq_eq_eq_not, Bool.not_true, List.any_eq_false] at h2
  simpa using h2 i hi

theorem mem_findSimilar {cfg : Config} {l : List SavedScreenshotInfo}
    {ph : Nat} {r : SavedScreenshotInfo} :
    r ∈ findSimilarScreenshots cfg l ph ↔
      r ∈ l ∧ areHashesSimilar cfg r.perceptual_hash ph = true := by
  unfold findSimilarScreenshots
  split
  · rename_i h
    rw [List.isEmpty_iff] at h
    simp [h]
  · split
    · rename_i hth
      constructor
      · intro h; exact absurd h (List.not_mem_nil r)
      · rintro ⟨_, hsim⟩
        rw [similar_false_of_threshold_zero cfg hth] at hsim
        exact absurd hsim (by simp)
    · exact List.mem_filter

/-! ### The stability state machine and saving -/

@[simp] theorem resetPending_saved (st : CaptureState) (h : Nat) :
    (resetPending st h).saved_screenshots = st.saved_screenshots := rfl

@[simp] theorem resetPending_saves (st : CaptureState) (h : Nat) :
    (resetPending st h).saves = st.saves := rfl

@[simp] theorem resetPending_count (st : CaptureState) (h : Nat) :
    (resetPending st h).screenshot_count = st.screenshot_count := rfl

@[simp] theorem stabilityUpdate_saved (cfg : Config) (st : CaptureState) (eh ph : Nat) :
    (stabilityUpdate cfg st eh ph).saved_screenshots = st.saved_screenshots := by
  unfold stabilityUpdate
  rcases st.pending_hash with _ | p
  · rfl
  · dsimp only
    split
    · rfl
    · split <;> rfl

@[simp] theorem stabilityUpdate_saves (cfg : Config) (st : CaptureState) (eh ph : Nat) :
    (stabilityUpdate cfg st eh ph).saves = st.saves := by
  unfold stabilityUpdate
  rcases st.pending_hash with _ | p
  · rfl
  · dsimp only
    split
    · rfl
    · split <;> rfl

@[simp] theorem stabilityUpdate_count (cfg : Config) (st : CaptureState) (eh ph : Nat) :
    (stabilityUpdate cfg st eh ph).screenshot_count = st.screenshot_count := by
  unfold stabilityUpdate
  rcases st.pending_hash with _ | p
  · rfl
  · dsimp only
    split
    · rfl
    · split <;> rfl

@[simp] theorem stabilityUpdate_fs (cfg : Config) (st : CaptureState) (eh ph : Nat) :
    (stabilityUpdate cfg st eh ph).fs = st.fs := by
  unfold stabilityUpdate
  rcases st.pending_hash with _ | p
  · rfl
  · dsimp only
    split
    · rfl
    · split <;> rfl

@[simp] theorem stabilityUpdate_next_path (cfg : Config) (st : CaptureState) (eh ph : Nat) :
    (stabilityUpdate cfg st eh ph).next_path = st.next_path := by
  unfold stabilityUpdate
  rcases st.pending_hash with _ | p
  · rfl
  · dsimp only
    split
    · rfl
    · split <;> rfl

/-- After removing every record similar to `ph`, no surviving record is
similar to `ph`. -/
theorem no_similar_after_remove (cfg : Config) (st : CaptureState) (ph : Nat) :
    ∀ r ∈ (removeSavedScreenshots st
        (findSimilarScreenshots cfg st.saved_screenshots ph)).saved_screenshots,
      areHashesSimilar cfg r.perceptual_hash ph = false := by
  intro r hr
  by_contra hsim
  rw [Bool.not_eq_false] at hsim
  have hmem : r ∈ st.saved_screenshots := mem_of_mem_removeSaved hr
  have hfs : r ∈ findSimilarScreenshots cfg st.saved_screenshots ph :=
    mem_findSimilar.mpr ⟨hmem, hsim⟩
  exact key_excluded_of_removeSaved hfs hr rfl

/-- The index invariant is preserved by shrinking the index. -/
theorem indexInvariant_mono {cfg : Config} {l l' : List SavedScreenshotInfo}
    (hsub : ∀ r ∈ l', r ∈ l) (h : indexInvariant cfg l) : indexInvariant cfg l' :=
  fun r1 h1 r2 h2 hne => h r1 (hsub r1 h1) r2 (hsub r2 h2) hne

theorem prepare_key_excluded (cfg : Config) (st : CaptureState) (eh ph : Nat) :
    ∀ r ∈ (prepareForNewScreenshot cfg st eh ph).saved_screenshots,
      r.exact_hash ≠ eh := by
  intro r hr heq
  unfold prepareForNewScreenshot at hr
  have hmem : r ∈ st.saved_screenshots := mem_of_mem_removeSaved hr
  have hex : r ∈ st.saved_screenshots.filter (fun i => i.exact_hash == eh) :=
    List.mem_filter.mpr ⟨hmem, by simp [heq]⟩
  exact key_excluded_of_removeSaved (List.mem_append_left _ hex) hr rfl

theorem prepare_similar_excluded (cfg : Config) (st : CaptureState) (eh ph : Nat) :
    ∀ r ∈ (prepareForNewScreenshot cfg st eh ph).saved_screenshots,
      areHashesSimilar cfg r.perceptual_hash ph = false := by
  intro r hr
  by_contra hsim
  rw [Bool.not_eq_false] at hsim
  unfold prepareForNewScreenshot at hr
  have hmem : r ∈ st.saved_screenshots := mem_of_mem_removeSaved hr
  have hfs : r ∈ findSimilarScreenshots cfg st.saved_screenshots ph :=
    mem_findSimilar.mpr ⟨hmem, hsim⟩
  exact key_excluded_of_removeSaved (List.mem_append_right _ hfs) hr rfl

theorem prepare_subset (cfg : Config) (st : CaptureState) (eh ph : Nat) :
    ∀ r ∈ (prepareForNewScreenshot cfg st eh ph).saved_screenshots,
      r ∈ st.saved_screenshots := by
  intro r hr
  unfold prepareForNewScreenshot at hr
  exact mem_of_mem_removeSaved hr

theorem saveScreenshot_saved (cfg : Config) (st : CaptureState) (eh ph : Nat) :
    (saveScreenshot cfg st eh ph).saved_screenshots =
      (prepareForNewScreenshot cfg st eh ph).saved_screenshots ++
        [⟨st.next_path, eh, ph⟩] := by
  unfold saveScreenshot indexInsert
  dsimp only
  rw [if_neg]
  rw [Bool.not_eq_true, List.any_eq_false]
  intro r hr
  simpa using prepare_key_excluded cfg st eh ph r hr

/-- A confirmed save preserves the archive-index invariant whenever the
similarity threshold is positive: everything it might collide with is
evicted first. -/
theorem saveScreenshot_invariant (cfg : Config) (st : CaptureState) (eh ph : Nat)
    (hth : similarityBitThreshold cfg ≠ 0)
    (hinv : indexInvariant cfg st.saved_screenshots) :
    indexInvariant cfg (saveScreenshot cfg st eh ph).saved_screenshots := by
  rw [saveScreenshot_saved]
  have hprep : indexInvariant cfg (prepareForNewScreenshot cfg st eh ph).saved_screenshots :=
    indexInvariant_mono (prepare_subset cfg st eh ph) hinv
  intro r1 h1 r2 h2 hne
  rw [List.mem_append] at h1 h2
  rcases h1 with h1 | h1 <;> rcases h2 with h2 | h2
  · exact hprep r1 h1 r2 h2 hne
  · have h2' : r2 = ⟨st.next_path, eh, ph⟩ := by simpa using h2
    subst h2'
    have hsim := prepare_similar_excluded cfg st eh ph r1 h1
    exact threshold_lt_of_similar_false cfg _ _ hth hsim
  · have h1' : r1 = ⟨st.next_path, eh, ph⟩ := by simpa using h1
    subst h1'
    have hsim := prepare_similar_excluded cfg st eh ph r2 h2
    rw [natXor_comm]
    exact threshold_lt_of_similar_false cfg _ _ hth hsim
  · have h1' : r1 = ⟨st.next_path, eh, ph⟩ := by simpa using h1
    have h2' : r2 = ⟨st.next_path, eh, ph⟩ := by simpa using h2
    subst h1'; subst h2'
    exact absurd rfl hne

/-- One tick preserves the archive-index invariant whenever the similarity
threshold is positive. -/
theorem tick_invariant (cfg : Config) (st : CaptureState) (f : Frame)
    (hth : similarityBitThreshold cfg ≠ 0)
    (hinv : indexInvariant cfg st.saved_screenshots) :
    indexInvariant cfg (tick cfg st f).saved_screenshots := by
  unfold tick
  dsimp only
  split
  · simpa using hinv
  · have hinv1 : indexInvariant cfg
        (removeSavedScreenshots st
          (findSimilarScreenshots cfg st.saved_screenshots f.perceptual_hash)).saved_screenshots :=
      indexInvariant_mono (fun r hr => mem_of_mem_removeSaved hr) hinv
    have hinv2 : indexInvariant cfg
        (stabilityUpdate cfg
          (removeSavedScreenshots st
            (findSimilarScreenshots cfg st.saved_screenshots f.perceptual_hash))
          f.exact_hash f.perceptual_hash).saved_screenshots := by
      rw [stabilityUpdate_saved]; exact hinv1
    split
    · simpa using saveScreenshot_invariant cfg _ f.exact_hash f.perceptual_hash hth hinv2
    · exact hinv2

/-! ### The startup prune pass -/

theorem pruneAux_mono {cfg : Config} {priors rest : List SavedScreenshotInfo}
    {a x : SavedScreenshotInfo}
    (h : x ∈ pruneMarkedAux cfg (priors ++ [a]) rest) :
    x ∈ pruneMarkedAux cfg priors (a :: rest) := by
  rw [pruneMarkedAux]
  split
  · exact List.mem_cons_of_mem a h
  · exact h

/-- Any record preceded (in the scanned order) by a perceptually-similar
record is marked by the prune pass. -/
theorem pruneAux_marks_of_prior (cfg : Config) :
    ∀ (pre priors suf : List SavedScreenshotInfo) (c : SavedScreenshotInfo),
      (∃ p ∈ priors ++ pre, areHashesSimilar cfg c.perceptual_hash p.perceptual_hash = true) →
      c ∈ pruneMarkedAux cfg priors (pre ++ c :: suf) := by
  intro pre
  induction pre with
  | nil =>
    intro priors suf c ⟨p, hp, hsim⟩
    rw [List.nil_append, pruneMarkedAux, if_pos]
    · exact List.mem_cons_self c _
    · rw [List.any_eq_true]
      exact ⟨p, by simpa using hp, hsim⟩
  | cons a pre' ih =>
    intro priors suf c ⟨p, hp, hsim⟩
    rw [List.cons_append]
    apply pruneAux_mono
    apply ih (priors ++ [a]) suf c
    refine ⟨p, ?_, hsim⟩
    simpa [List.append_assoc] using hp

/-- After the prune pass, the index satisfies the pairwise-dissimilarity
invariant (for a positive threshold). -/
theorem prune_invariant (cfg : Config) (st : CaptureState)
    (hth : similarityBitThreshold cfg ≠ 0) :
    indexInvariant cfg (pruneExistingSimilarScreenshots cfg st).saved_screenshots := by
  unfold pruneExistingSimilarScreenshots
  split
  · rename_i h
    rw [List.isEmpty_iff] at h
    intro r1 h1
    rw [h] at h1
    exact absurd h1 (List.not_mem_nil r1)
  · intro r1 h1 r2 h2 hne
    have hm1 := mem_of_mem_removeSaved h1
    have hm2 := mem_of_mem_removeSaved h2
    set l := st.saved_screenshots with hl
    obtain ⟨i, hi, hgi⟩ := List.mem_iff_getElem.mp hm1
    obtain ⟨j, hj, hgj⟩ := List.mem_iff_getElem.mp hm2
    have hij : i ≠ j := by
      intro hEq
      subst hEq
      apply hne
      rw [← hgi, ← hgj]
    have key : ∀ a b : Nat, a < b → (hb : b < l.length) → (ha : a < l.length) →
        areHashesSimilar cfg (l[b].perceptual_hash) (l[a].perceptual_hash) = true →
        ¬ l[b] ∈ (removeSavedScreenshots st
            (pruneMarkedAux cfg [] l)).saved_screenshots := by
      intro a b hab hb ha hsim hmem
      have hdecomp : l = l.take b ++ l[b] :: l.drop (b+1) := by
        conv_lhs => rw [← List.take_append_drop b l]
        rw [List.drop_eq_getElem_cons hb]
      have hpmem : l[a] ∈ l.take b := by
        have hlen : a < (l.take b).length := by
          simp [List.length_take]; omega
        have h2 : (l.take b)[a] = l[a] := @List.getElem_take _ l b a hlen
        rw [← h2]
        exact List.getElem_mem hlen
      have hmark' : l[b] ∈ pruneMarkedAux cfg [] (l.take b ++ l[b] :: l.drop (b+1)) :=
        pruneAux_marks_of_prior cfg (l.take b) [] (l.drop (b+1)) (l[b])
          ⟨l[a], by simpa using hpmem, hsim⟩
      have hmark : l[b] ∈ pruneMarkedAux cfg [] l := by
        rw [← hdecomp] at hmark'
        exact hmark'
      exact key_excluded_of_removeSaved hmark hmem rfl
    rcases Nat.lt_or_ge i j with hlt | hge
    · have hsim : areHashesSimilar cfg r2.perceptual_hash r1.perceptual_hash = false := by
        by_contra hc
        rw [Bool.not_eq_false] at hc
        refine key i j hlt hj hi ?_ ?_
        · rw [hgi, hgj]; exact hc
        · rw [hgj]; exact h2
      rw [natXor_comm]
      exact threshold_lt_of_similar_false cfg _ _ hth hsim
    · have hlt : j < i := Nat.lt_of_le_of_ne hge (Ne.symm hij)
      have hsim : areHashesSimilar cfg r1.perceptual_hash r2.perceptual_hash = false := by
        by_contra hc
        rw [Bool.not_eq_false] at hc
        refine key j i hlt hi hj ?_ ?_
        · rw [hgi, hgj]; exact hc
        · rw [hgi]; exact h1
      exact threshold_lt_of_similar_false cfg _ _ hth hsim

/-! ### Threshold evaluation lemmas for concrete configurations -/

theorem simThresh_ratio_zero (h k : Nat) : similarityBitThreshold ⟨h, 0, k⟩ = 0 := by
  simp [similarityBitThreshold]

theorem simThresh_ratio_one (h k : Nat) :
    similarityBitThreshold ⟨h, 1, k⟩ = max 1 (h * h) := by
  unfold similarityBitThreshold
  dsimp only
  rw [mul_one, Int.floor_natCast, min_self]
  omega

/-! ### Claim C2 -/

/-- C2 (amended): after reconciliation and after every completed tick, any
two distinct records of the archive index are at Hamming distance strictly
above the similarity bit-threshold — provided the configured threshold is
positive.  (At threshold 0 perceptual matching is disabled and the
invariant fails; see the counterexample.) -/
theorem C2_amended (cfg : Config) (hth : similarityBitThreshold cfg ≠ 0) :
    (∀ (st : CaptureState) (existing : List ExistingFile),
        st.running = false →
        indexInvariant cfg (start cfg st existing).saved_screenshots)
    ∧ (∀ (st : CaptureState) (f : Frame),
        indexInvariant cfg st.saved_screenshots →
        indexInvariant cfg (tick cfg st f).saved_screenshots) := by
  constructor
  · intro st existing hrun
    unfold start
    rw [if_neg (by simp [hrun])]
    unfold loadExistingHashes
    exact prune_invariant cfg _ hth
  · intro st f hinv
    exact tick_invariant cfg st f hth hinv

/-- C2 witness: with grid 4 and change-ratio 1 the threshold is 16, and the
invariant indeed holds after reconciling an empty directory. -/
theorem C2_amended_witness :
    similarityBitThreshold ⟨4, 1, 1⟩ ≠ 0 ∧ initState.running = false ∧
      indexInvariant ⟨4, 1, 1⟩ (start ⟨4, 1, 1⟩ initState []).saved_screenshots :=
  ⟨by rw [simThresh_ratio_one]; omega, rfl,
    (C2_amended ⟨4, 1, 1⟩ (by rw [simThresh_ratio_one]; omega)).1 initState [] rfl⟩

/-- C2 counterexample: with threshold 0 (change-ratio 0), reconciling a
directory holding two pixel-distinct images with identical perceptual
fingerprints keeps both records, so two distinct records sit at Hamming
distance 0, which does not exceed the threshold 0 — the claim's "including
a threshold of 0" fails. -/
theorem C2_counterexample :
    ¬ indexInvariant ⟨4, 0, 1⟩
        (start ⟨4, 0, 1⟩ initState [⟨0, true, 1, 0⟩, ⟨1, true, 2, 0⟩]).saved_screenshots := by
  intro h
  have hsaved : (start ⟨4, 0, 1⟩ initState
      [⟨0, true, 1, 0⟩, ⟨1, true, 2, 0⟩]).saved_screenshots
      = [⟨0, 1, 0⟩, ⟨1, 2, 0⟩] := by
    simp [start, initState, sessionReset, loadExistingHashes, loadScanStep,
      pruneExistingSimilarScreenshots, pruneMarkedAux, removeSavedScreenshots,
      similar_false_of_threshold_zero ⟨4, 0, 1⟩ (simThresh_ratio_zero 4 1)]
  rw [hsaved] at h
  have h2 := h ⟨0, 1, 0⟩ (by simp) ⟨1, 2, 0⟩ (by simp) (by decide)
  rw [simThresh_ratio_zero] at h2
  simp [popCount, popCountGo] at h2

/-! ### Claim C5 -/

/-- C5 (amended): for every configuration whose similarity bit-threshold is
positive, `are_similar(a, b)` holds exactly when `popcount(a xor b) ≤
threshold`; at threshold 0 the predicate is instead constantly false
(perceptual matching disabled).  For `hash_size ≥ 1` the threshold equals
`floor(hash_size² × change_ratio)` clamped to `[0, hash_size²]`. -/
theorem C5_amended (cfg : Config) (a b : Nat)
    (hth : similarityBitThreshold cfg ≠ 0) (hs : 1 ≤ cfg.hash_size) :
    (areHashesSimilar cfg a b = true ↔
      popCount (Nat.xor a b) ≤ similarityBitThreshold cfg)
    ∧ similarityBitThreshold cfg = claimedSimilarityBitThreshold cfg := by
  constructor
  · simp [areHashesSimilar, hth]
  · unfold similarityBitThreshold claimedSimilarityBitThreshold
    have h1 : max 1 (cfg.hash_size * cfg.hash_size) = cfg.hash_size * cfg.hash_size :=
      Nat.max_eq_right (Nat.one_le_iff_ne_zero.mpr (Nat.mul_ne_zero
        (Nat.one_le_iff_ne_zero.mp hs) (Nat.one_le_iff_ne_zero.mp hs)))
    rw [h1]

/-- C5 witness: grid 4, change-ratio 1 (threshold 16). -/
theorem C5_amended_witness :
    (similarityBitThreshold ⟨4, 1, 3⟩ ≠ 0 ∧ 1 ≤ (4 : Nat)) ∧
      ((areHashesSimilar ⟨4, 1, 3⟩ 3 1 = true ↔
        popCount (Nat.xor 3 1) ≤ similarityBitThreshold ⟨4, 1, 3⟩)
      ∧ similarityBitThreshold ⟨4, 1, 3⟩ = claimedSimilarityBitThreshold ⟨4, 1, 3⟩) :=
  ⟨⟨by rw [simThresh_ratio_one]; omega, by omega⟩,
    C5_amended ⟨4, 1, 3⟩ 3 1 (by rw [simThresh_ratio_one]; omega) (by decide)⟩

/-- C5 counterexample: at threshold 0 (change-ratio 0) the claimed
equivalence fails — `popcount(5 xor 5) = 0 ≤ 0` holds, yet
`_are_hashes_similar` returns False. -/
theorem C5_counterexample :
    areHashesSimilar ⟨4, 0, 3⟩ 5 5 = false ∧
      popCount (Nat.xor 5 5) ≤ similarityBitThreshold ⟨4, 0, 3⟩ := by
  refine ⟨similar_false_of_threshold_zero _ (simThresh_ratio_zero 4 3) 5 5, ?_⟩
  rw [simThresh_ratio_zero]
  simp [popCount, popCountGo]

/-! ### Claim C9 -/

/-- C9: a `FileNotFoundError` outcome when deleting a record's backing file
is treated as a successful deletion, and a record processed by
`_remove_saved_screenshots` leaves the in-memory index no matter what the
deletion outcome is — removal from the index never depends on deletion
success. -/
theorem C9_deletion_handling (fs : FileSystem) (p : Nat) (st : CaptureState)
    (infos : List SavedScreenshotInfo) (hnf : fs.unlinkErr p = some true) :
    deleteFileSafely fs p = (true, fs)
    ∧ ∀ i ∈ infos, ∀ r ∈ (removeSavedScreenshots st infos).saved_screenshots,
        r.exact_hash ≠ i.exact_hash := by
  constructor
  · unfold deleteFileSafely
    rw [hnf]
  · intro i hi r hr
    exact key_excluded_of_removeSaved hi hr

/-- C9 witness: a file system whose deletions all raise
`FileNotFoundError`, and an eviction list containing one record. -/
theorem C9_deletion_handling_witness :
    (FileSystem.mk [] (fun _ => some true)).unlinkErr 0 = some true ∧
      (deleteFileSafely (FileSystem.mk [] (fun _ => some true)) 0 =
          (true, FileSystem.mk [] (fun _ => some true))
        ∧ ∀ i ∈ [(⟨0, 7, 0⟩ : SavedScreenshotInfo)],
            ∀ r ∈ (removeSavedScreenshots initState
                [(⟨0, 7, 0⟩ : SavedScreenshotInfo)]).saved_screenshots,
              r.exact_hash ≠ i.exact_hash) :=
  ⟨rfl, C9_deletion_handling (FileSystem.mk [] (fun _ => some true)) 0 initState
    [(⟨0, 7, 0⟩ : SavedScreenshotInfo)] rfl⟩

/-! ### File-system effects of eviction -/

/-- With unique index keys, the dict lookup performed inside
`_remove_saved_screenshots` returns the record itself. -/
theorem find?_key_unique :
    ∀ (l : List SavedScreenshotInfo) (r : SavedScreenshotInfo), r ∈ l →
      (l.map SavedScreenshotInfo.exact_hash).Nodup →
      l.find? (fun i => i.exact_hash == r.exact_hash) = some r := by
  intro l
  induction l with
  | nil => intro r hr; exact absurd hr (List.not_mem_nil r)
  | cons a t ih =>
    intro r hr hnd
    rw [List.map_cons, List.nodup_cons] at hnd
    by_cases hk : a.exact_hash = r.exact_hash
    · have hra : r = a := by
        rcases List.mem_cons.mp hr with h | h
        · exact h
        · exact absurd (hk ▸ List.mem_map_of_mem SavedScreenshotInfo.exact_hash h) hnd.1
      rw [List.find?_cons_of_pos _ (by simp [hk]), hra]
    · have hrt : r ∈ t := by
        rcases List.mem_cons.mp hr with h | h
        · exact absurd (show a.exact_hash = r.exact_hash by rw [h]) hk
        · exact h
      rw [List.find?_cons_of_neg _ (by simp [hk])]
      exact ih r hrt hnd.2

theorem removeOne_files_sublist (st : CaptureState) (i : SavedScreenshotInfo) :
    (removeOne st i).fs.files.Sublist st.fs.files := by
  unfold removeOne deleteFileSafely
  split
  · rcases hu : st.fs.unlinkErr
      (((st.saved_screenshots.find? fun j => j.exact_hash == i.exact_hash).getD i).path)
      with _ | b
    · simpa [hu] using List.erase_sublist _ _
    · cases b <;> simp [hu]
  · exact List.Sublist.refl _

theorem removeSaved_files_sublist (infos : List SavedScreenshotInfo) :
    ∀ st : CaptureState,
      (removeSavedScreenshots st infos).fs.files.Sublist st.fs.files := by
  induction infos with
  | nil => intro st; exact List.Sublist.refl _
  | cons i is ih =>
    intro st
    exact (ih (removeOne st i)).trans (removeOne_files_sublist st i)

/-- Processing a record whose file deletion succeeds erases its path from
the file system. -/
theorem removeSaved_erases_path :
    ∀ (infos : List SavedScreenshotInfo) (st : CaptureState),
      (st.saved_screenshots.map SavedScreenshotInfo.exact_hash).Nodup →
      st.fs.files.Nodup →
      (infos.map SavedScreenshotInfo.exact_hash).Nodup →
      (∀ i ∈ infos, i ∈ st.saved_screenshots) →
      ∀ r ∈ infos, st.fs.unlinkErr r.path = none →
        r.path ∉ (removeSavedScreenshots st infos).fs.files := by
  intro infos
  induction infos with
  | nil =>
    intro st _ _ _ _ r hr
    exact absurd hr (List.not_mem_nil r)
  | cons i is ih =>
    intro st hkeys hfnd hikeys hisub r hr hnone
    have hstep : removeSavedScreenshots st (i :: is) =
        removeSavedScreenshots (removeOne st i) is := rfl
    rcases List.mem_cons.mp hr with hri | hri
    · subst hri
      have hany : st.saved_screenshots.any (fun j => j.exact_hash == r.exact_hash) = true := by
        rw [List.any_eq_true]
        exact ⟨r, hisub r (List.mem_cons_self r is), by simp⟩
      have hfind := find?_key_unique st.saved_screenshots r (hisub r (List.mem_cons_self r is)) hkeys
      have hfiles : (removeOne st r).fs.files = st.fs.files.erase r.path := by
        unfold removeOne deleteFileSafely
        rw [if_pos hany, hfind]
        simp [hnone]
      have hnot : r.path ∉ (removeOne st r).fs.files := by
        rw [hfiles]
        exact hfnd.not_mem_erase
      rw [hstep]
      intro hmem
      exact hnot ((removeSaved_files_sublist is (removeOne st r)).subset hmem)
    · rw [hstep]
      rw [List.map_cons, List.nodup_cons] at hikeys
      apply ih (removeOne st i)
      · rw [removeOne_saved]
        exact (List.Sublist.map SavedScreenshotInfo.exact_hash (List.filter_sublist _)).nodup hkeys
      · exact (removeOne_files_sublist st i).nodup hfnd
      · exact hikeys.2
      · intro j hj
        rw [removeOne_saved, List.mem_filter]
        refine ⟨hisub j (List.mem_cons_of_mem i hj), ?_⟩
        have hne : j.exact_hash ≠ i.exact_hash := by
          intro hEq
          exact hikeys.1 (hEq ▸ List.mem_map_of_mem SavedScreenshotInfo.exact_hash hj)
        simp [hne]
      · exact hri
      · rw [removeOne_unlinkErr]
        exact hnone

theorem findSimilar_sublist (cfg : Config) (l : List SavedScreenshotInfo) (ph : Nat) :
    (findSimilarScreenshots cfg l ph).Sublist l := by
  unfold findSimilarScreenshots
  split
  · exact List.nil_sublist l
  · split
    · exact List.nil_sublist l
    · exact List.filter_sublist l

theorem mem_saveScreenshot_files {cfg : Config} {st : CaptureState} {eh ph p : Nat}
    (h : p ∈ (saveScreenshot cfg st eh ph).fs.files) :
    p ∈ (prepareForNewScreenshot cfg st eh ph).fs.files ∨ p = st.next_path := by
  unfold saveScreenshot at h
  dsimp only at h
  split at h
  · exact Or.inl h
  · rcases List.mem_append.mp h with h | h
    · exact Or.inl h
    · exact Or.inr (by simpa using h)

theorem prepare_files_sublist (cfg : Config) (st : CaptureState) (eh ph : Nat) :
    (prepareForNewScreenshot cfg st eh ph).fs.files.Sublist st.fs.files :=
  removeSaved_files_sublist _ st

/-! ### Claim C7 -/

/-- C7: on a tick whose frame is not yet archived exactly but is
perceptually similar (positive threshold) to archived records, those
records are evicted during the tick — dropped from the index, their backing
files deleted — and this happens even when the tick performs no save (the
pending candidate starts empty and `stability_samples ≥ 2`). -/
theorem C7_eviction_before_confirmation (cfg : Config) (st : CaptureState) (f : Frame)
    (hth : similarityBitThreshold cfg ≠ 0)
    (hnotin : ∀ r ∈ st.saved_screenshots, r.exact_hash ≠ f.exact_hash)
    (hkeys : (st.saved_screenshots.map SavedScreenshotInfo.exact_hash).Nodup)
    (hfnd : st.fs.files.Nodup)
    (hfresh : ∀ r ∈ st.saved_screenshots, r.path < st.next_path) :
    (∀ r ∈ st.saved_screenshots,
      areHashesSimilar cfg r.perceptual_hash f.perceptual_hash = true →
      (∀ r' ∈ (tick cfg st f).saved_screenshots, r'.exact_hash ≠ r.exact_hash)
      ∧ (st.fs.unlinkErr r.path = none → r.path ∉ (tick cfg st f).fs.files))
    ∧ (st.pending_hash = none → 2 ≤ cfg.stability_samples →
        (tick cfg st f).saves = st.saves) := by
  have hnotany : st.saved_screenshots.any (fun i => i.exact_hash == f.exact_hash) = false := by
    rw [List.any_eq_false]
    intro r hr
    simpa using hnotin r hr
  have hsimsub : ∀ x ∈ findSimilarScreenshots cfg st.saved_screenshots f.perceptual_hash,
      x ∈ st.saved_screenshots := fun x hx => (mem_findSimilar.mp hx).1
  have htick : tick cfg st f =
      (let st1 := removeSavedScreenshots st
        (findSimilarScreenshots cfg st.saved_screenshots f.perceptual_hash);
      let st2 := stabilityUpdate cfg st1 f.exact_hash f.perceptual_hash;
      if cfg.stability_samples ≤ st2.pending_count then
        let st3 := saveScreenshot cfg st2 f.exact_hash f.perceptual_hash
        { st3 with
          pending_hash := none, pending_perceptual_hash := none, pending_count := 0 }
      else st2) := by
    unfold tick
    rw [if_neg (by simp [hnotany])]
  constructor
  · intro r hr hsim
    have hrsim : r ∈ findSimilarScreenshots cfg st.saved_screenshots f.perceptual_hash :=
      mem_findSimilar.mpr ⟨hr, hsim⟩
    have hkey1 : ∀ x ∈ (removeSavedScreenshots st
        (findSimilarScreenshots cfg st.saved_screenshots f.perceptual_hash)).saved_screenshots,
        x.exact_hash ≠ r.exact_hash :=
      fun x hx => key_excluded_of_removeSaved hrsim hx
    constructor
    · intro r' hr'
      rw [htick] at hr'
      dsimp only at hr'
      split at hr'
      · simp only [] at hr'
        rw [saveScreenshot_saved] at hr'
        rcases List.mem_append.mp hr' with h | h
        · have hmem2 : r' ∈ (stabilityUpdate cfg (removeSavedScreenshots st
              (findSimilarScreenshots cfg st.saved_screenshots f.perceptual_hash))
              f.exact_hash f.perceptual_hash).saved_screenshots :=
            prepare_subset _ _ _ _ r' h
          rw [stabilityUpdate_saved] at hmem2
          exact hkey1 r' hmem2
        · have hr'' : r' = ⟨(stabilityUpdate cfg (removeSavedScreenshots st
              (findSimilarScreenshots cfg st.saved_screenshots f.perceptual_hash))
              f.exact_hash f.perceptual_hash).next_path, f.exact_hash, f.perceptual_hash⟩ := by
            simpa using h
          rw [hr'']
          exact Ne.symm (hnotin r hr)
      · rw [stabilityUpdate_saved] at hr'
        exact hkey1 r' hr'
    · intro hnone
      have hgone : r.path ∉ (removeSavedScreenshots st
          (findSimilarScreenshots cfg st.saved_screenshots f.perceptual_hash)).fs.files :=
        removeSaved_erases_path
          (findSimilarScreenshots cfg st.saved_screenshots f.perceptual_hash) st hkeys hfnd
          ((List.Sublist.map SavedScreenshotInfo.exact_hash
            (findSimilar_sublist cfg st.saved_screenshots f.perceptual_hash)).nodup hkeys)
          hsimsub r hrsim hnone
      rw [htick]
      dsimp only
      split
      · intro hmem
        simp only [] at hmem
        rcases mem_saveScreenshot_files hmem with h | h
        · have hsub := prepare_files_sublist cfg (stabilityUpdate cfg
            (removeSavedScreenshots st
              (findSimilarScreenshots cfg st.saved_screenshots f.perceptual_hash))
            f.exact_hash f.perceptual_hash) f.exact_hash f.perceptual_hash
          rw [stabilityUpdate_fs] at hsub
          exact hgone (hsub.subset h)
        · rw [stabilityUpdate_next_path, removeSaved_next_path] at h
          exact absurd h (Nat.ne_of_lt (hfresh r hr))
      · rw [stabilityUpdate_fs]
        exact hgone
  · intro hpend hK
    rw [htick]
    dsimp only
    have hpend1 : (removeSavedScreenshots st
        (findSimilarScreenshots cfg st.saved_screenshots f.perceptual_hash)).pending_hash
        = none := by
      rw [removeSaved_pending_hash]; exact hpend
    have hcount : (stabilityUpdate cfg (removeSavedScreenshots st
        (findSimilarScreenshots cfg st.saved_screenshots f.perceptual_hash))
        f.exact_hash f.perceptual_hash).pending_count = 1 := by
      unfold stabilityUpdate
      rw [hpend1]
    rw [if_neg (by omega)]
    rw [stabilityUpdate_saves, removeSaved_saves]

/-- C7 witness: a session holding one record similar to the observed frame,
with `stability_samples = 2`, so the tick evicts without saving. -/
theorem C7_witness :
    (similarityBitThreshold ⟨4, 1, 2⟩ ≠ 0
      ∧ (∀ r ∈ sampleState.saved_screenshots, r.exact_hash ≠ (9 : Nat))
      ∧ (sampleState.saved_screenshots.map SavedScreenshotInfo.exact_hash).Nodup
      ∧ sampleState.fs.files.Nodup
      ∧ (∀ r ∈ sampleState.saved_screenshots, r.path < sampleState.next_path))
    ∧ ((∀ r ∈ sampleState.saved_screenshots,
        areHashesSimilar ⟨4, 1, 2⟩ r.perceptual_hash (7 : Nat) = true →
        (∀ r' ∈ (tick ⟨4, 1, 2⟩ sampleState ⟨9, 7⟩).saved_screenshots,
            r'.exact_hash ≠ r.exact_hash)
        ∧ (sampleState.fs.unlinkErr r.path = none →
            r.path ∉ (tick ⟨4, 1, 2⟩ sampleState ⟨9, 7⟩).fs.files))
      ∧ (sampleState.pending_hash = none → 2 ≤ (Config.mk 4 1 2).stability_samples →
          (tick ⟨4, 1, 2⟩ sampleState ⟨9, 7⟩).saves = sampleState.saves)) :=
  ⟨⟨by rw [simThresh_ratio_one]; omega, by decide, by decide, by decide, by decide⟩,
    C7_eviction_before_confirmation ⟨4, 1, 2⟩ sampleState ⟨9, 7⟩
      (by rw [simThresh_ratio_one]; omega) (by decide) (by decide) (by decide) (by decide)⟩

/-! ### Tick sequences: stability climb, save, and post-save suppression -/

theorem runTicks_append (cfg : Config) (st : CaptureState) (l1 l2 : List Frame) :
    runTicks cfg st (l1 ++ l2) = runTicks cfg (runTicks cfg st l1) l2 :=
  List.foldl_append _ _ l1 l2

theorem tick_not_archived (cfg : Config) (st : CaptureState) (f : Frame)
    (hany : st.saved_screenshots.any (fun i => i.exact_hash == f.exact_hash) = false) :
    tick cfg st f =
      (let st1 := removeSavedScreenshots st
        (findSimilarScreenshots cfg st.saved_screenshots f.perceptual_hash);
      let st2 := stabilityUpdate cfg st1 f.exact_hash f.perceptual_hash;
      if cfg.stability_samples ≤ st2.pending_count then
        { saveScreenshot cfg st2 f.exact_hash f.perceptual_hash with
          pending_hash := none, pending_perceptual_hash := none, pending_count := 0 }
      else st2) := by
  unfold tick
  rw [if_neg (by simp [hany])]

theorem tick_archived (cfg : Config) (st : CaptureState) (f : Frame)
    (hany : st.saved_screenshots.any (fun i => i.exact_hash == f.exact_hash) = true) :
    tick cfg st f = resetPending st f.exact_hash := by
  unfold tick
  rw [if_pos (by simp [hany])]

theorem stabilityUpdate_of_none (cfg : Config) (st : CaptureState) (eh ph : Nat)
    (h : st.pending_hash = none) :
    stabilityUpdate cfg st eh ph =
      { st with
        pending_hash := some eh,
        pending_perceptual_hash := some ph,
        pending_count := 1 } := by
  unfold stabilityUpdate
  rw [h]

theorem stabilityUpdate_of_match (cfg : Config) (st : CaptureState) (eh ph : Nat)
    (h : st.pending_hash = some eh) :
    stabilityUpdate cfg st eh ph = { st with pending_count := st.pending_count + 1 } := by
  unfold stabilityUpdate
  rw [h]
  simp

theorem any_key_false_of_removeSaved (st : CaptureState)
    (infos : List SavedScreenshotInfo) (eh : Nat)
    (h : st.saved_screenshots.any (fun i => i.exact_hash == eh) = false) :
    (removeSavedScreenshots st infos).saved_screenshots.any
      (fun i => i.exact_hash == eh) = false := by
  rw [removeSaved_saved]
  rw [List.any_eq_false] at h ⊢
  intro x hx
  exact h x (List.mem_filter.mp hx).1

theorem findSimilar_eq_nil {cfg : Config} {l : List SavedScreenshotInfo} {ph : Nat}
    (h : ∀ r ∈ l, areHashesSimilar cfg r.perceptual_hash ph = false) :
    findSimilarScreenshots cfg l ph = [] := by
  unfold findSimilarScreenshots
  split
  · rfl
  · split
    · rfl
    · rw [List.filter_eq_nil_iff]
      intro a ha
      simp [h a ha]

theorem removeSaved_nil (st : CaptureState) : removeSavedScreenshots st [] = st := rfl

theorem findSimilar_after_remove (cfg : Config) (st : CaptureState) (ph : Nat) :
    findSimilarScreenshots cfg
      (removeSavedScreenshots st
        (findSimilarScreenshots cfg st.saved_screenshots ph)).saved_screenshots ph = [] :=
  findSimilar_eq_nil (no_similar_after_remove cfg st ph)

theorem saveScreenshot_saves (cfg : Config) (st : CaptureState) (eh ph : Nat) :
    (saveScreenshot cfg st eh ph).saves = st.saves ++ [eh] := by
  unfold saveScreenshot
  dsimp only
  rw [show (prepareForNewScreenshot cfg st eh ph).saves = st.saves from removeSaved_saves _ st]

theorem saveScreenshot_count (cfg : Config) (st : CaptureState) (eh ph : Nat) :
    (saveScreenshot cfg st eh ph).screenshot_count = st.screenshot_count + 1 := by
  unfold saveScreenshot
  dsimp only
  rw [show (prepareForNewScreenshot cfg st eh ph).screenshot_count = st.screenshot_count
    from removeSaved_count _ st]

theorem saveScreenshot_last_hash (cfg : Config) (st : CaptureState) (eh ph : Nat) :
    (saveScreenshot cfg st eh ph).last_hash = some eh := rfl

theorem saveScreenshot_key_mem (cfg : Config) (st : CaptureState) (eh ph : Nat) :
    ∃ r ∈ (saveScreenshot cfg st eh ph).saved_screenshots, r.exact_hash = eh := by
  rw [saveScreenshot_saved]
  exact ⟨⟨st.next_path, eh, ph⟩, List.mem_append_right _ (List.mem_singleton.mpr rfl), rfl⟩

/-- Climb: starting from an empty pending candidate with the frame not yet
archived, `j < stability_samples` identical ticks leave the tracker at
count `j` with no save. -/
theorem runTicks_climb (cfg : Config) (st : CaptureState) (f : Frame)
    (hpend : st.pending_hash = none)
    (hany : st.saved_screenshots.any (fun i => i.exact_hash == f.exact_hash) = false) :
    ∀ j, 1 ≤ j → j < cfg.stability_samples →
      runTicks cfg st (List.replicate j f) =
        { removeSavedScreenshots st
            (findSimilarScreenshots cfg st.saved_screenshots f.perceptual_hash) with
          pending_hash := some f.exact_hash,
          pending_perceptual_hash := some f.perceptual_hash,
          pending_count := j } := by
  intro j
  induction j with
  | zero => intro h; omega
  | succ j ih =>
    intro _ hlt
    rcases Nat.eq_zero_or_pos j with hj | hj
    · subst hj
      show tick cfg st f = _
      rw [tick_not_archived cfg st f hany]
      dsimp only
      rw [stabilityUpdate_of_none cfg _ _ _ (by rw [removeSaved_pending_hash]; exact hpend)]
      rw [if_neg (by dsimp only; omega)]
    · rw [List.replicate_succ', runTicks_append, ih hj (by omega)]
      show tick cfg _ f = _
      rw [tick_not_archived _ _ f (by
        dsimp only
        exact any_key_false_of_removeSaved st _ _ hany)]
      dsimp only
      rw [findSimilar_after_remove cfg st f.perceptual_hash]
      rw [removeSaved_nil]
      rw [stabilityUpdate_of_match cfg _ _ _ rfl]
      rw [if_neg (by dsimp only; omega)]

/-- The `stability_samples`-th identical tick performs the save and clears
the tracker. -/
theorem runTicks_save (cfg : Config) (st : CaptureState) (f : Frame)
    (hpend : st.pending_hash = none)
    (hany : st.saved_screenshots.any (fun i => i.exact_hash == f.exact_hash) = false)
    (hK : 1 ≤ cfg.stability_samples) :
    runTicks cfg st (List.replicate cfg.stability_samples f) =
      { saveScreenshot cfg
          { removeSavedScreenshots st
              (findSimilarScreenshots cfg st.saved_screenshots f.perceptual_hash) with
            pending_hash := some f.exact_hash,
            pending_perceptual_hash := some f.perceptual_hash,
            pending_count := cfg.stability_samples }
          f.exact_hash f.perceptual_hash with
        pending_hash := none, pending_perceptual_hash := none, pending_count := 0 } := by
  rcases Nat.lt_or_ge cfg.stability_samples 2 with h2 | h2
  · have h1 : cfg.stability_samples = 1 := by omega
    rw [h1, List.replicate_one]
    show tick cfg st f = _
    rw [tick_not_archived cfg st f hany]
    dsimp only
    rw [stabilityUpdate_of_none cfg _ _ _ (by rw [removeSaved_pending_hash]; exact hpend)]
    rw [if_pos (by dsimp only; omega)]
  · have hsplit : cfg.stability_samples = (cfg.stability_samples - 1) + 1 := by omega
    rw [hsplit, List.replicate_succ', runTicks_append]
    rw [runTicks_climb cfg st f hpend hany (cfg.stability_samples - 1) (by omega) (by omega)]
    show tick cfg _ f = _
    rw [tick_not_archived _ _ f (by
      dsimp only
      exact any_key_false_of_removeSaved st _ _ hany)]
    dsimp only
    rw [findSimilar_after_remove cfg st f.perceptual_hash]
    rw [removeSaved_nil]
    rw [stabilityUpdate_of_match cfg _ _ _ rfl]
    rw [if_pos (by dsimp only; omega)]

/-- A tick whose frame is already archived and whose tracker is already
reset is a no-op. -/
theorem tick_fixpoint (cfg : Config) (st : CaptureState) (f : Frame)
    (hin : st.saved_screenshots.any (fun i => i.exact_hash == f.exact_hash) = true)
    (h1 : st.pending_hash = none) (h2 : st.pending_perceptual_hash = none)
    (h3 : st.pending_count = 0) (h4 : st.last_hash = some f.exact_hash) :
    tick cfg st f = st := by
  rw [tick_archived cfg st f hin]
  unfold resetPending
  cases st
  simp only at h1 h2 h3 h4
  simp [h1, h2, h3, h4]

theorem runTicks_fixpoint (cfg : Config) (st : CaptureState) (f : Frame)
    (hfix : tick cfg st f = st) : ∀ n, runTicks cfg st (List.replicate n f) = st := by
  intro n
  induction n with
  | zero => rfl
  | succ n ih =>
    rw [List.replicate_succ]
    show runTicks cfg (tick cfg st f) (List.replicate n f) = st
    rw [hfix]
    exact ih

/-! ### Claim C1 -/

/-- C1: feeding the tick step the same frame `stability_samples` times from
an empty pending candidate, with the frame's exact fingerprint absent from
the index, saves exactly once — no save strictly before the
`stability_samples`-th tick, one save on it — and continuing to feed the
same frame forever adds no further saves: each later run leaves the save
log unchanged, the pending candidate reset (hash cleared, count zero), the
frame's exact fingerprint in the index, and the screenshot count at exactly
one more than before. -/
theorem C1_idempotent_duplicate_suppression (cfg : Config) (st : CaptureState) (f : Frame)
    (hK : 1 ≤ cfg.stability_samples)
    (hpend : st.pending_hash = none)
    (hnotin : ∀ r ∈ st.saved_screenshots, r.exact_hash ≠ f.exact_hash) (n : Nat) :
    (runTicks cfg st (List.replicate (cfg.stability_samples - 1) f)).saves = st.saves
    ∧ (runTicks cfg st (List.replicate cfg.stability_samples f)).saves
        = st.saves ++ [f.exact_hash]
    ∧ (runTicks cfg st (List.replicate (cfg.stability_samples + n) f)).saves
        = st.saves ++ [f.exact_hash]
    ∧ (runTicks cfg st (List.replicate (cfg.stability_samples + n) f)).pending_hash = none
    ∧ (runTicks cfg st (List.replicate (cfg.stability_samples + n) f)).pending_count = 0
    ∧ (∃ r ∈ (runTicks cfg st
          (List.replicate (cfg.stability_samples + n) f)).saved_screenshots,
        r.exact_hash = f.exact_hash)
    ∧ (runTicks cfg st (List.replicate (cfg.stability_samples + n) f)).screenshot_count
        = st.screenshot_count + 1 := by
  have hany : st.saved_screenshots.any (fun i => i.exact_hash == f.exact_hash) = false := by
    rw [List.any_eq_false]
    intro r hr
    simpa using hnotin r hr
  have hsave := runTicks_save cfg st f hpend hany hK
  have hfix : tick cfg (runTicks cfg st (List.replicate cfg.stability_samples f)) f
      = runTicks cfg st (List.replicate cfg.stability_samples f) := by
    apply tick_fixpoint
    · rw [hsave]
      dsimp only
      rw [List.any_eq_true]
      obtain ⟨r, hr, hkey⟩ := saveScreenshot_key_mem cfg _ f.exact_hash f.perceptual_hash
      exact ⟨r, hr, by simp [hkey]⟩
    · rw [hsave]
    · rw [hsave]
    · rw [hsave]
    · rw [hsave]
      dsimp only
      exact saveScreenshot_last_hash cfg _ f.exact_hash f.perceptual_hash
  have hKn : runTicks cfg st (List.replicate (cfg.stability_samples + n) f)
      = runTicks cfg st (List.replicate cfg.stability_samples f) := by
    rw [List.replicate_add, runTicks_append]
    exact runTicks_fixpoint cfg _ f hfix n
  refine ⟨?_, ?_, ?_, ?_, ?_, ?_, ?_⟩
  · rcases Nat.lt_or_ge cfg.stability_samples 2 with h2 | h2
    · have h1 : cfg.stability_samples - 1 = 0 := by omega
      rw [h1]
      rfl
    · rw [runTicks_climb cfg st f hpend hany (cfg.stability_samples - 1) (by omega) (by omega)]
      simp
  · rw [hsave]
    dsimp only
    rw [saveScreenshot_saves]
    simp
  · rw [hKn, hsave]
    dsimp only
    rw [saveScreenshot_saves]
    simp
  · rw [hKn, hsave]
  · rw [hKn, hsave]
  · rw [hKn, hsave]
    dsimp only
    exact saveScreenshot_key_mem cfg _ f.exact_hash f.perceptual_hash
  · rw [hKn, hsave]
    dsimp only
    rw [saveScreenshot_count]
    simp

/-- C1 witness: `stability_samples = 2`, an empty session, the frame fed
four ticks in total. -/
theorem C1_witness :
    (1 ≤ (Config.mk 4 1 2).stability_samples ∧ initState.pending_hash = none
      ∧ (∀ r ∈ initState.saved_screenshots, r.exact_hash ≠ (5 : Nat)))
    ∧ ((runTicks ⟨4, 1, 2⟩ initState
          (List.replicate ((Config.mk 4 1 2).stability_samples - 1) ⟨5, 7⟩)).saves
        = initState.saves
      ∧ (runTicks ⟨4, 1, 2⟩ initState
          (List.replicate (Config.mk 4 1 2).stability_samples ⟨5, 7⟩)).saves
        = initState.saves ++ [5]
      ∧ (runTicks ⟨4, 1, 2⟩ initState
          (List.replicate ((Config.mk 4 1 2).stability_samples + 2) ⟨5, 7⟩)).saves
        = initState.saves ++ [5]
      ∧ (runTicks ⟨4, 1, 2⟩ initState
          (List.replicate ((Config.mk 4 1 2).stability_samples + 2) ⟨5, 7⟩)).pending_hash
        = none
      ∧ (runTicks ⟨4, 1, 2⟩ initState
          (List.replicate ((Config.mk 4 1 2).stability_samples + 2) ⟨5, 7⟩)).pending_count
        = 0
      ∧ (∃ r ∈ (runTicks ⟨4, 1, 2⟩ initState
            (List.replicate ((Config.mk 4 1 2).stability_samples + 2) ⟨5, 7⟩)).saved_screenshots,
          r.exact_hash = (Frame.mk 5 7).exact_hash)
      ∧ (runTicks ⟨4, 1, 2⟩ initState
          (List.replicate ((Config.mk 4 1 2).stability_samples + 2) ⟨5, 7⟩)).screenshot_count
        = initState.screenshot_count + 1) :=
  ⟨⟨by decide, rfl, by decide⟩,
    C1_idempotent_duplicate_suppression ⟨4, 1, 2⟩ initState ⟨5, 7⟩
      (by decide) rfl (by decide) 2⟩

/-! ### Save provenance: a tick can only save the frame it was fed -/

theorem tick_saves_provenance (cfg : Config) (st : CaptureState) (f : Frame) (x : Nat)
    (h : x ∈ (tick cfg st f).saves) : x ∈ st.saves ∨ x = f.exact_hash := by
  unfold tick at h
  dsimp only at h
  split at h
  · exact Or.inl (by simpa using h)
  · split at h
    · dsimp only at h
      rw [saveScreenshot_saves] at h
      simp only [stabilityUpdate_saves, removeSaved_saves] at h
      rcases List.mem_append.mp h with h | h
      · exact Or.inl h
      · exact Or.inr (by simpa using h)
    · simp only [stabilityUpdate_saves, removeSaved_saves] at h
      exact Or.inl h

theorem runTicks_saves_provenance (cfg : Config) (l : List Frame) :
    ∀ (st : CaptureState) (x : Nat), x ∈ (runTicks cfg st l).saves →
      x ∈ st.saves ∨ ∃ w ∈ l, x = w.exact_hash := by
  induction l with
  | nil => intro st x h; exact Or.inl h
  | cons w ws ih =>
    intro st x h
    rcases ih (tick cfg st w) x h with h1 | ⟨w', hw', hx⟩
    · rcases tick_saves_provenance cfg st w x h1 with h2 | h2
      · exact Or.inl h2
      · exact Or.inr ⟨w, List.mem_cons_self w ws, h2⟩
    · exact Or.inr ⟨w', List.mem_cons_of_mem w hw', hx⟩

theorem resetPending_idem (st : CaptureState) (h : Nat) :
    resetPending (resetPending st h) h = resetPending st h := rfl

theorem runTicks_archived (cfg : Config) (st : CaptureState) (f : Frame)
    (hin : st.saved_screenshots.any (fun i => i.exact_hash == f.exact_hash) = true) :
    ∀ j, 1 ≤ j →
      runTicks cfg st (List.replicate j f) = resetPending st f.exact_hash := by
  intro j
  induction j with
  | zero => intro h; omega
  | succ j ih =>
    intro _
    rcases Nat.eq_zero_or_pos j with hj | hj
    · subst hj
      show tick cfg st f = _
      exact tick_archived cfg st f hin
    · rw [List.replicate_succ', runTicks_append, ih hj]
      show tick cfg _ f = _
      rw [tick_archived cfg _ f (by simpa using hin)]
      rfl

/-! ### Claim C6 -/

/-- C6: feeding a frame for `stability_samples − 1` ticks from an empty
pending candidate and then a frame that is neither exact-equal nor
perceptually similar to it never yields a save of the first frame — not on
that tick and not on any later tick that does not feed the first frame
again. -/
theorem C6_stability_requirement (cfg : Config) (st : CaptureState) (f g : Frame)
    (ws : List Frame)
    (hpend : st.pending_hash = none)
    (hsaves : st.saves = [])
    (hg1 : g.exact_hash ≠ f.exact_hash)
    (hg2 : areHashesSimilar cfg f.perceptual_hash g.perceptual_hash = false)
    (hws : ∀ w ∈ ws, w.exact_hash ≠ f.exact_hash) :
    f.exact_hash ∉ (runTicks cfg st
      (List.replicate (cfg.stability_samples - 1) f ++ g :: ws)).saves := by
  intro hmem
  rw [runTicks_append] at hmem
  have hMsaves : (runTicks cfg st (List.replicate (cfg.stability_samples - 1) f)).saves
      = [] := by
    rcases Nat.eq_zero_or_pos (cfg.stability_samples - 1) with h0 | h0
    · rw [h0]
      exact hsaves
    · cases hany : st.saved_screenshots.any (fun i => i.exact_hash == f.exact_hash) with
      | false =>
        rw [runTicks_climb cfg st f hpend hany (cfg.stability_samples - 1) h0 (by omega)]
        simpa using hsaves
      | true =>
        rw [runTicks_archived cfg st f hany (cfg.stability_samples - 1) h0]
        exact hsaves
  rcases runTicks_saves_provenance cfg (g :: ws) _ f.exact_hash hmem with h1 | ⟨w, hw, hx⟩
  · rw [hMsaves] at h1
    exact absurd h1 (List.not_mem_nil _)
  · rcases List.mem_cons.mp hw with hw | hw
    · exact hg1 (by rw [← hw, hx])
    · exact hws w hw (by rw [← hx])

/-- C6 witness: `stability_samples = 3`, the frame fed twice, then a
dissimilar frame, then two further unrelated frames. -/
theorem C6_witness :
    (initState.pending_hash = none ∧ initState.saves = []
      ∧ (Frame.mk 9 255).exact_hash ≠ (Frame.mk 5 0).exact_hash
      ∧ areHashesSimilar ⟨4, 0, 3⟩ (Frame.mk 5 0).perceptual_hash
          (Frame.mk 9 255).perceptual_hash = false
      ∧ (∀ w ∈ [Frame.mk 11 3, Frame.mk 12 4], w.exact_hash ≠ (Frame.mk 5 0).exact_hash))
    ∧ (Frame.mk 5 0).exact_hash ∉ (runTicks ⟨4, 0, 3⟩ initState
        (List.replicate ((Config.mk 4 0 3).stability_samples - 1) ⟨5, 0⟩
          ++ Frame.mk 9 255 :: [Frame.mk 11 3, Frame.mk 12 4])).saves :=
  ⟨⟨rfl, rfl, by decide,
      similar_false_of_threshold_zero ⟨4, 0, 3⟩ (simThresh_ratio_zero 4 3) _ _, by decide⟩,
    C6_stability_requirement ⟨4, 0, 3⟩ initState ⟨5, 0⟩ ⟨9, 255⟩ [⟨11, 3⟩, ⟨12, 4⟩]
      rfl rfl (by decide)
      (similar_false_of_threshold_zero ⟨4, 0, 3⟩ (simThresh_ratio_zero 4 3) _ _)
      (by decide)⟩

/-! ### Field preservation across the startup scan -/

@[simp] theorem removeOne_last_hash (st : CaptureState) (i : SavedScreenshotInfo) :
    (removeOne st i).last_hash = st.last_hash := by
  unfold removeOne; split <;> rfl

@[simp] theorem removeSaved_last_hash (infos : List SavedScreenshotInfo) :
    ∀ st : CaptureState, (removeSavedScreenshots st infos).last_hash = st.last_hash := by
  induction infos with
  | nil => intro st; rfl
  | cons i is ih => intro st; simpa [removeSavedScreenshots] using ih (removeOne st i)

theorem removeOne_lastpath_none (st : CaptureState) (i : SavedScreenshotInfo)
    (h : st.last_screenshot_path = none) :
    (removeOne st i).last_screenshot_path = none := by
  unfold removeOne
  split
  · simp [h]
  · exact h

theorem removeSaved_lastpath_none (infos : List SavedScreenshotInfo) :
    ∀ st : CaptureState, st.last_screenshot_path = none →
      (removeSavedScreenshots st infos).last_screenshot_path = none := by
  induction infos with
  | nil => intro st h; exact h
  | cons i is ih =>
    intro st h
    exact ih (removeOne st i) (removeOne_lastpath_none st i h)

theorem loadScanStep_fields (st : CaptureState) (f : ExistingFile) :
    (loadScanStep st f).pending_hash = st.pending_hash
    ∧ (loadScanStep st f).pending_perceptual_hash = st.pending_perceptual_hash
    ∧ (loadScanStep st f).pending_count = st.pending_count
    ∧ (loadScanStep st f).screenshot_count = st.screenshot_count
    ∧ (loadScanStep st f).last_hash = st.last_hash
    ∧ (loadScanStep st f).last_screenshot_path = st.last_screenshot_path
    ∧ (loadScanStep st f).running = st.running := by
  unfold loadScanStep deleteFileSafely
  split
  · exact ⟨rfl, rfl, rfl, rfl, rfl, rfl, rfl⟩
  · split
    · rcases st.fs.unlinkErr f.path with _ | b
      · exact ⟨rfl, rfl, rfl, rfl, rfl, rfl, rfl⟩
      · cases b <;> exact ⟨rfl, rfl, rfl, rfl, rfl, rfl, rfl⟩
    · exact ⟨rfl, rfl, rfl, rfl, rfl, rfl, rfl⟩

theorem scanFold_fields (l : List ExistingFile) :
    ∀ st : CaptureState,
      (l.foldl loadScanStep st).pending_hash = st.pending_hash
      ∧ (l.foldl loadScanStep st).pending_perceptual_hash = st.pending_perceptual_hash
      ∧ (l.foldl loadScanStep st).pending_count = st.pending_count
      ∧ (l.foldl loadScanStep st).screenshot_count = st.screenshot_count
      ∧ (l.foldl loadScanStep st).last_hash = st.last_hash
      ∧ (l.foldl loadScanStep st).last_screenshot_path = st.last_screenshot_path
      ∧ (l.foldl loadScanStep st).running = st.running := by
  induction l with
  | nil => intro st; exact ⟨rfl, rfl, rfl, rfl, rfl, rfl, rfl⟩
  | cons f fs ih =>
    intro st
    obtain ⟨a1, a2, a3, a4, a5, a6, a7⟩ := loadScanStep_fields st f
    obtain ⟨b1, b2, b3, b4, b5, b6, b7⟩ := ih (loadScanStep st f)
    rw [List.foldl_cons]
    exact ⟨b1.trans a1, b2.trans a2, b3.trans a3, b4.trans a4,
      b5.trans a5, b6.trans a6, b7.trans a7⟩

theorem loadExisting_fields (cfg : Config) (st : CaptureState) (l : List ExistingFile) :
    (loadExistingHashes cfg st l).pending_hash = st.pending_hash
    ∧ (loadExistingHashes cfg st l).pending_perceptual_hash = st.pending_perceptual_hash
    ∧ (loadExistingHashes cfg st l).pending_count = st.pending_count
    ∧ (loadExistingHashes cfg st l).screenshot_count = st.screenshot_count
    ∧ (loadExistingHashes cfg st l).last_hash = st.last_hash
    ∧ (loadExistingHashes cfg st l).running = st.running := by
  obtain ⟨a1, a2, a3, a4, a5, a6, a7⟩ := scanFold_fields l st
  unfold loadExistingHashes pruneExistingSimilarScreenshots
  split
  · exact ⟨a1, a2, a3, a4, a5, a7⟩
  · refine ⟨?_, ?_, ?_, ?_, ?_, ?_⟩
    · rw [removeSaved_pending_hash]; exact a1
    · rw [removeSaved_pending_pph]; exact a2
    · rw [removeSaved_pending_count]; exact a3
    · rw [removeSaved_count]; exact a4
    · rw [removeSaved_last_hash]; exact a5
    · rw [removeSaved_running]; exact a7

/-! ### Claim C8 -/

/-- C8 (amended): `start` while running is a no-op; `start` while not
running clears the screenshot count, last path, last hash, and the pending
candidate hashes (the stability tracker is observationally Empty), and
reseeds the index from disk — but it does NOT zero the consecutive-match
counter `_pending_count`, which keeps its previous value (it is only
overwritten when the next tick begins a new candidate). -/
theorem C8_amended (cfg : Config) (st : CaptureState) (existing : List ExistingFile) :
    (st.running = true → start cfg st existing = st)
    ∧ (st.running = false →
        (start cfg st existing).running = true
        ∧ (start cfg st existing).screenshot_count = 0
        ∧ (start cfg st existing).last_screenshot_path = none
        ∧ (start cfg st existing).last_hash = none
        ∧ (start cfg st existing).pending_hash = none
        ∧ (start cfg st existing).pending_perceptual_hash = none
        ∧ (start cfg st existing).pending_count = st.pending_count
        ∧ (start cfg st existing).saved_screenshots =
            (loadExistingHashes cfg (sessionReset st) existing).saved_screenshots) := by
  constructor
  · intro hrun
    unfold start
    rw [if_pos hrun]
  · intro hrun
    unfold start
    rw [if_neg (by simp [hrun])]
    obtain ⟨a1, a2, a3, a4, a5, a6⟩ := loadExisting_fields cfg (sessionReset st) existing
    have hlp : (loadExistingHashes cfg (sessionReset st) existing).last_screenshot_path
        = none := by
      obtain ⟨_, _, _, _, _, b6, _⟩ := scanFold_fields existing (sessionReset st)
      unfold loadExistingHashes pruneExistingSimilarScreenshots
      split
      · exact b6
      · exact removeSaved_lastpath_none _ _ b6
    exact ⟨rfl, a4, hlp, a5, a1, a2, a3, rfl⟩

/-- C8 witness: starting an idle session resets the count and pending
hashes and flips `running`. -/
theorem C8_amended_witness :
    initState.running = false ∧
      ((start ⟨4, 1, 3⟩ initState []).running = true
      ∧ (start ⟨4, 1, 3⟩ initState []).screenshot_count = 0
      ∧ (start ⟨4, 1, 3⟩ initState []).last_screenshot_path = none
      ∧ (start ⟨4, 1, 3⟩ initState []).last_hash = none
      ∧ (start ⟨4, 1, 3⟩ initState []).pending_hash = none
      ∧ (start ⟨4, 1, 3⟩ initState []).pending_perceptual_hash = none
      ∧ (start ⟨4, 1, 3⟩ initState []).pending_count = initState.pending_count
      ∧ (start ⟨4, 1, 3⟩ initState []).saved_screenshots =
          (loadExistingHashes ⟨4, 1, 3⟩ (sessionReset initState) []).saved_screenshots) :=
  ⟨rfl, (C8_amended ⟨4, 1, 3⟩ initState []).2 rfl⟩

/-- C8 counterexample: `start` does not zero `_pending_count`
(lines 117–122 of the source never touch it): a stale count of 5
survives into the new session. -/
theorem C8_counterexample :
    ({ initState with pending_count := 5 } : CaptureState).running = false
    ∧ (start ⟨4, 1, 3⟩ { initState with pending_count := 5 } []).pending_count = 5
    ∧ ¬ (start ⟨4, 1, 3⟩ { initState with pending_count := 5 } []).pending_count = 0 :=
  ⟨rfl, rfl, by decide⟩

/-! ### Index/file parity: well-formedness is preserved by the tick -/

theorem find?_decomp {p : SavedScreenshotInfo → Bool} :
    ∀ {l : List SavedScreenshotInfo} {r : SavedScreenshotInfo},
      l.find? p = some r →
      ∃ l1 l2, l = l1 ++ r :: l2 ∧ (∀ x ∈ l1, p x = false) := by
  intro l
  induction l with
  | nil => intro r h; exact absurd h (by simp)
  | cons a t ih =>
    intro r h
    by_cases hp : p a = true
    · rw [List.find?_cons_of_pos _ hp, Option.some_inj] at h
      exact ⟨[], t, by rw [h]; rfl, by simp⟩
    · rw [List.find?_cons_of_neg _ (by simpa using hp)] at h
      obtain ⟨l1, l2, hdec, hl1⟩ := ih h
      refine ⟨a :: l1, l2, by rw [List.cons_append, hdec], ?_⟩
      intro x hx
      rcases List.mem_cons.mp hx with hx | hx
      · rw [hx]
        simpa using hp
      · exact hl1 x hx

theorem removeOne_files_eq (st : CaptureState) (i : SavedScreenshotInfo)
    (hkeys : (st.saved_screenshots.map SavedScreenshotInfo.exact_hash).Nodup)
    (hpaths : (st.saved_screenshots.map SavedScreenshotInfo.path).Nodup)
    (hfiles : st.fs.files = st.saved_screenshots.map SavedScreenshotInfo.path)
    (hnone : ∀ q, st.fs.unlinkErr q = none) :
    (removeOne st i).fs.files =
      (removeOne st i).saved_screenshots.map SavedScreenshotInfo.path := by
  rw [removeOne_saved]
  unfold removeOne
  split
  · rename_i hany
    rw [List.any_eq_true] at hany
    obtain ⟨e0, he0, hpe0⟩ := hany
    have hsome : (st.saved_screenshots.find?
        (fun j => j.exact_hash == i.exact_hash)).isSome := by
      rw [List.find?_isSome]
      exact ⟨e0, he0, hpe0⟩
    obtain ⟨e, he⟩ := Option.isSome_iff_exists.mp hsome
    obtain ⟨l1, l2, hdec, hl1⟩ := find?_decomp he
    have hpe : e.exact_hash = i.exact_hash := by
      have := List.find?_some he
      simpa using this
    have hl2 : ∀ x ∈ l2, (x.exact_hash == i.exact_hash) = false := by
      intro x hx
      rw [hdec, List.map_append, List.map_cons] at hkeys
      have hnin := (List.nodup_append.mp hkeys).2.2
      have hx2 : x.exact_hash ∈ l2.map SavedScreenshotInfo.exact_hash :=
        List.mem_map_of_mem _ hx
      have hne : x.exact_hash ≠ e.exact_hash := by
        intro hEq
        have hcons := (List.nodup_cons.mp (List.nodup_append.mp hkeys).2.1)
        exact hcons.1 (hEq ▸ hx2)
      simp [hpe ▸ hne]
    have hfilter : (l1 ++ e :: l2).filter (fun r => !(r.exact_hash == i.exact_hash))
        = l1 ++ l2 := by
      rw [List.filter_append, List.filter_cons]
      rw [if_neg (by simp [hpe])]
      rw [List.filter_eq_self.mpr (by intro a ha; simp [hl1 a ha]),
        List.filter_eq_self.mpr (by intro a ha; simp [hl2 a ha])]
    have hdel : deleteFileSafely st.fs e.path =
        (true, { st.fs with files := st.fs.files.erase e.path }) := by
      unfold deleteFileSafely
      rw [hnone e.path]
    dsimp only
    simp only [he, Option.getD_some, hdel]
    rw [hfiles, hdec, List.map_append, List.map_cons]
    have hpnotin : e.path ∉ l1.map SavedScreenshotInfo.path := by
      intro hmem
      rw [hdec, List.map_append, List.map_cons] at hpaths
      have := (List.nodup_append.mp hpaths).2.2
      exact this hmem (List.mem_cons_self _ _)
    rw [List.erase_append_right _ hpnotin, List.erase_cons_head, hfilter, List.map_append]
  · rename_i hany
    rw [Bool.not_eq_true, List.any_eq_false] at hany
    rw [List.filter_eq_self.mpr (by intro a ha; simpa using hany a ha)]
    exact hfiles

theorem removeOne_wf (st : CaptureState) (i : SavedScreenshotInfo)
    (hwf : wellFormed st) : wellFormed (removeOne st i) := by
  obtain ⟨hkeys, hpaths, hfiles, hfresh, hnone⟩ := hwf
  refine ⟨?_, ?_, ?_, ?_, ?_⟩
  · rw [removeOne_saved]
    exact ((List.filter_sublist _).map SavedScreenshotInfo.exact_hash).nodup hkeys
  · rw [removeOne_saved]
    exact ((List.filter_sublist _).map SavedScreenshotInfo.path).nodup hpaths
  · exact removeOne_files_eq st i hkeys hpaths hfiles hnone
  · intro r hr
    rw [removeOne_saved] at hr
    rw [removeOne_next_path]
    exact hfresh r (List.mem_filter.mp hr).1
  · intro q
    rw [removeOne_unlinkErr]
    exact hnone q

theorem removeSaved_wf (infos : List SavedScreenshotInfo) :
    ∀ st : CaptureState, wellFormed st → wellFormed (removeSavedScreenshots st infos) := by
  induction infos with
  | nil => intro st h; exact h
  | cons i is ih =>
    intro st h
    exact ih (removeOne st i) (removeOne_wf st i h)

theorem saveScreenshot_files_eq (cfg : Config) (st : CaptureState) (eh ph : Nat)
    (hni : st.next_path ∉ (prepareForNewScreenshot cfg st eh ph).fs.files) :
    (saveScreenshot cfg st eh ph).fs.files
      = (prepareForNewScreenshot cfg st eh ph).fs.files ++ [st.next_path] := by
  unfold saveScreenshot
  dsimp only
  simp [hni]

theorem saveScreenshot_next_path (cfg : Config) (st : CaptureState) (eh ph : Nat) :
    (saveScreenshot cfg st eh ph).next_path = st.next_path + 1 := by
  unfold saveScreenshot
  dsimp only
  rw [show (prepareForNewScreenshot cfg st eh ph).next_path = st.next_path
    from removeSaved_next_path _ st]

theorem saveScreenshot_unlinkErr (cfg : Config) (st : CaptureState) (eh ph : Nat) :
    (saveScreenshot cfg st eh ph).fs.unlinkErr = st.fs.unlinkErr := by
  unfold saveScreenshot
  dsimp only
  exact removeSaved_unlinkErr _ st

theorem saveScreenshot_wf (cfg : Config) (st : CaptureState) (eh ph : Nat)
    (hwf : wellFormed st) : wellFormed (saveScreenshot cfg st eh ph) := by
  have hwf1 : wellFormed (prepareForNewScreenshot cfg st eh ph) :=
    removeSaved_wf _ st hwf
  obtain ⟨hkeys, hpaths, hfiles, hfresh, hnone⟩ := hwf1
  have hnp : (prepareForNewScreenshot cfg st eh ph).next_path = st.next_path :=
    removeSaved_next_path _ st
  have hpnotin : st.next_path ∉
      (prepareForNewScreenshot cfg st eh ph).saved_screenshots.map
        SavedScreenshotInfo.path := by
    intro hmem
    obtain ⟨r, hr, hrp⟩ := List.mem_map.mp hmem
    have := hfresh r hr
    omega
  have hcont : st.next_path ∉ (prepareForNewScreenshot cfg st eh ph).fs.files := by
    rw [hfiles]
    exact hpnotin
  have hknotin : eh ∉
      (prepareForNewScreenshot cfg st eh ph).saved_screenshots.map
        SavedScreenshotInfo.exact_hash := by
    intro hmem
    obtain ⟨r, hr, hrk⟩ := List.mem_map.mp hmem
    exact prepare_key_excluded cfg st eh ph r hr hrk
  refine ⟨?_, ?_, ?_, ?_, ?_⟩
  · rw [saveScreenshot_saved, List.map_append, List.map_cons, List.map_nil,
      List.nodup_append]
    exact ⟨hkeys, List.nodup_singleton eh, by simpa [List.disjoint_singleton] using hknotin⟩
  · rw [saveScreenshot_saved, List.map_append, List.map_cons, List.map_nil,
      List.nodup_append]
    exact ⟨hpaths, List.nodup_singleton _, by simpa [List.disjoint_singleton] using hpnotin⟩
  · rw [saveScreenshot_saved, saveScreenshot_files_eq cfg st eh ph hcont,
      List.map_append, hfiles]
    rfl
  · intro r hr
    rw [saveScreenshot_saved] at hr
    rw [saveScreenshot_next_path]
    rcases List.mem_append.mp hr with h | h
    · have := hfresh r h
      rw [hnp] at this
      omega
    · have : r = ⟨st.next_path, eh, ph⟩ := by simpa using h
      rw [this]
      show st.next_path < st.next_path + 1
      omega
  · intro q
    rw [saveScreenshot_unlinkErr]
    exact (hwf.2.2.2.2) q

theorem resetPending_wf (st : CaptureState) (h : Nat) (hwf : wellFormed st) :
    wellFormed (resetPending st h) := hwf

theorem stabilityUpdate_wf (cfg : Config) (st : CaptureState) (eh ph : Nat)
    (hwf : wellFormed st) : wellFormed (stabilityUpdate cfg st eh ph) := by
  obtain ⟨h1, h2, h3, h4, h5⟩ := hwf
  refine ⟨?_, ?_, ?_, ?_, ?_⟩ <;>
    simp only [stabilityUpdate_saved, stabilityUpdate_fs, stabilityUpdate_next_path]
  · exact h1
  · exact h2
  · exact h3
  · exact h4
  · exact h5

theorem tick_wf (cfg : Config) (st : CaptureState) (f : Frame)
    (hwf : wellFormed st) : wellFormed (tick cfg st f) := by
  unfold tick
  dsimp only
  split
  · exact resetPending_wf st _ hwf
  · have hwf1 : wellFormed (removeSavedScreenshots st
        (findSimilarScreenshots cfg st.saved_screenshots f.perceptual_hash)) :=
      removeSaved_wf _ st hwf
    have hwf2 := stabilityUpdate_wf cfg _ f.exact_hash f.perceptual_hash hwf1
    split
    · have hwf3 := saveScreenshot_wf cfg _ f.exact_hash f.perceptual_hash hwf2
      exact hwf3
    · exact hwf2

theorem tick_count_saves (cfg : Config) (st : CaptureState) (f : Frame)
    (hc : st.screenshot_count = st.saves.length) :
    (tick cfg st f).screenshot_count = (tick cfg st f).saves.length := by
  unfold tick
  dsimp only
  split
  · simpa using hc
  · split
    · dsimp only
      rw [saveScreenshot_saves, saveScreenshot_count]
      simp only [stabilityUpdate_saves, stabilityUpdate_count,
        removeSaved_saves, removeSaved_count]
      simp [hc]
    · simp only [stabilityUpdate_saves, stabilityUpdate_count,
        removeSaved_saves, removeSaved_count]
      exact hc

theorem wellFormed_initState : wellFormed initState :=
  ⟨List.nodup_nil, List.nodup_nil, rfl,
    fun r hr => absurd hr (List.not_mem_nil r), fun _ => rfl⟩

/-! ### Claim C3 -/

/-- C3 (amended): on every tick of a well-formed session the number of
on-disk files equals the number of index entries (the archive reflects
distinct visual states, also when a confirmed save evicts a similar older
record), while the published screenshot count equals the total number of
saves performed during the session — the count is incremented on each save
and never decremented on eviction, so after an evicting save it exceeds
the number of archived states. -/
theorem C3_amended (cfg : Config) (st : CaptureState) (f : Frame)
    (hwf : wellFormed st) (hcount : st.screenshot_count = st.saves.length) :
    (tick cfg st f).fs.files.length = (tick cfg st f).saved_screenshots.length
    ∧ (tick cfg st f).screenshot_count = (tick cfg st f).saves.length := by
  have hwf2 := tick_wf cfg st f hwf
  refine ⟨?_, tick_count_saves cfg st f hcount⟩
  rw [hwf2.2.2.1, List.length_map]

/-- C3 witness: first tick of a fresh session. -/
theorem C3_amended_witness :
    (wellFormed initState ∧ initState.screenshot_count = initState.saves.length)
    ∧ ((tick ⟨4, 1, 1⟩ initState ⟨1, 0⟩).fs.files.length
        = (tick ⟨4, 1, 1⟩ initState ⟨1, 0⟩).saved_screenshots.length
      ∧ (tick ⟨4, 1, 1⟩ initState ⟨1, 0⟩).screenshot_count
        = (tick ⟨4, 1, 1⟩ initState ⟨1, 0⟩).saves.length) :=
  ⟨⟨wellFormed_initState, rfl⟩,
    C3_amended ⟨4, 1, 1⟩ initState ⟨1, 0⟩ wellFormed_initState rfl⟩

/-- C3 counterexample: with `stability_samples = 1`, saving frame (1,0) and
then the visually-similar but pixel-distinct frame (2,1) evicts the first
record: one index entry and one file remain, yet the published screenshot
count is 2 — it counts saves performed, not distinct states archived. -/
theorem C3_counterexample :
    (tick ⟨4, 1, 1⟩ (tick ⟨4, 1, 1⟩ initState ⟨1, 0⟩) ⟨2, 1⟩).screenshot_count = 2
    ∧ (tick ⟨4, 1, 1⟩ (tick ⟨4, 1, 1⟩ initState ⟨1, 0⟩) ⟨2, 1⟩).saved_screenshots.length = 1
    ∧ (tick ⟨4, 1, 1⟩ (tick ⟨4, 1, 1⟩ initState ⟨1, 0⟩) ⟨2, 1⟩).fs.files.length = 1 := by
  have h1 : tick ⟨4, 1, 1⟩ initState ⟨1, 0⟩ =
      { running := false, screenshot_count := 1, last_screenshot_path := some 0,
        last_hash := some 1, saved_screenshots := [⟨0, 1, 0⟩], pending_hash := none,
        pending_perceptual_hash := none, pending_count := 0, next_path := 1,
        saves := [1], fs := { files := [0], unlinkErr := fun _ => none } } := rfl
  have hsim : areHashesSimilar ⟨4, 1, 1⟩ 0 1 = true := by
    simp only [areHashesSimilar, simThresh_ratio_one]
    decide
  have hfs : findSimilarScreenshots ⟨4, 1, 1⟩ [⟨0, 1, 0⟩] 1 = [⟨0, 1, 0⟩] := by
    simp [findSimilarScreenshots, simThresh_ratio_one, hsim]
  have h2 : tick ⟨4, 1, 1⟩ (tick ⟨4, 1, 1⟩ initState ⟨1, 0⟩) ⟨2, 1⟩ =
      { running := false, screenshot_count := 2, last_screenshot_path := some 1,
        last_hash := some 2, saved_screenshots := [⟨1, 2, 1⟩], pending_hash := none,
        pending_perceptual_hash := none, pending_count := 0, next_path := 2,
        saves := [1, 2], fs := { files := [1], unlinkErr := fun _ => none } } := by
    rw [h1, tick_not_archived _ _ _ (by decide)]
    dsimp only
    rw [hfs]
    rfl
  exact ⟨by rw [h2], by rw [h2]; rfl, by rw [h2]; rfl⟩

/-! ### Claim C10 -/

theorem simThresh_eq_claimed (cfg : Config) (hs : 1 ≤ cfg.hash_size) :
    similarityBitThreshold cfg = claimedSimilarityBitThreshold cfg := by
  unfold similarityBitThreshold claimedSimilarityBitThreshold
  have h1 : max 1 (cfg.hash_size * cfg.hash_size) = cfg.hash_size * cfg.hash_size :=
    Nat.max_eq_right (Nat.one_le_iff_ne_zero.mpr (Nat.mul_ne_zero
      (Nat.one_le_iff_ne_zero.mp hs) (Nat.one_le_iff_ne_zero.mp hs)))
  rw [h1]

theorem packBits_aux (avg : ℚ) :
    ∀ (l : List Nat) (acc k : Nat), acc < 2 ^ k →
      l.foldl (fun (bits : Nat) (pixel : Nat) =>
          bits * 2 + (if avg ≤ (pixel : ℚ) then 1 else 0)) acc
        < 2 ^ (k + l.length) := by
  intro l
  induction l with
  | nil =>
    intro acc k h
    simpa using h
  | cons p t ih =>
    intro acc k h
    rw [List.foldl_cons]
    have hb : (if avg ≤ (p : ℚ) then 1 else 0) ≤ 1 := by split <;> omega
    have hstep : acc * 2 + (if avg ≤ (p : ℚ) then 1 else 0) < 2 ^ (k + 1) := by
      have : 2 ^ (k + 1) = 2 ^ k * 2 := by ring
      omega
    have := ih _ (k + 1) hstep
    rw [List.length_cons]
    have harith : k + 1 + t.length = k + (t.length + 1) := by omega
    rw [harith] at this
    exact this

theorem packBits_lt (avg : ℚ) (pixels : List Nat) :
    packBits avg pixels < 2 ^ pixels.length := by
  have h := packBits_aux avg pixels 0 0 (by omega)
  rw [Nat.zero_add] at h
  unfold packBits
  exact h

/-- C10 (amended): for every configured `hash_size` with
`1 ≤ hash_size < 4` the perceptual fingerprint is computed over the clamped
`max(4, hash_size) = 4` grid and therefore has 16 bits, while the
similarity bit-threshold is computed from `hash_size² < 16` total bits —
the fingerprint's bit length and the threshold's scale disagree.  (For
`hash_size = 0` the threshold is instead computed from `max(1, hash_size²)
= 1` total bit, not `hash_size² = 0`; see the counterexample.) -/
theorem C10_grid_clamp (cfg : Config) (pixels : List Nat)
    (h1 : 1 ≤ cfg.hash_size) (h4 : cfg.hash_size < 4)
    (hlen : pixels.length =
      effectiveGridSize cfg.hash_size * effectiveGridSize cfg.hash_size) :
    effectiveGridSize cfg.hash_size = 4
    ∧ computePerceptualHash pixels < 2 ^ 16
    ∧ similarityBitThreshold cfg = claimedSimilarityBitThreshold cfg
    ∧ cfg.hash_size * cfg.hash_size < 16 := by
  have hg : effectiveGridSize cfg.hash_size = 4 := by
    unfold effectiveGridSize
    omega
  refine ⟨hg, ?_, simThresh_eq_claimed cfg h1, by nlinarith⟩
  have hbound := packBits_lt
    (((pixels.map (fun p => (p : ℚ))).sum) / (pixels.length : ℚ)) pixels
  rw [hlen, hg] at hbound
  unfold computePerceptualHash
  rw [hlen, hg]
  simpa using hbound

/-- C10 witness: `hash_size = 2` — a 16-bit fingerprint against a 4-bit
threshold scale. -/
theorem C10_witness :
    (1 ≤ (Config.mk 2 1 3).hash_size ∧ (Config.mk 2 1 3).hash_size < 4
      ∧ (List.replicate 16 0).length =
          effectiveGridSize (Config.mk 2 1 3).hash_size
            * effectiveGridSize (Config.mk 2 1 3).hash_size)
    ∧ (effectiveGridSize (Config.mk 2 1 3).hash_size = 4
      ∧ computePerceptualHash (List.replicate 16 0) < 2 ^ 16
      ∧ similarityBitThreshold ⟨2, 1, 3⟩ = claimedSimilarityBitThreshold ⟨2, 1, 3⟩
      ∧ (Config.mk 2 1 3).hash_size * (Config.mk 2 1 3).hash_size < 16) :=
  ⟨⟨by decide, by decide, by decide⟩,
    C10_grid_clamp ⟨2, 1, 3⟩ (List.replicate 16 0) (by decide) (by decide) (by decide)⟩

/-- C10 counterexample: at `hash_size = 0` (and change-ratio 1) the code's
threshold is computed from `max(1, 0²) = 1` total bit and equals 1, whereas
a threshold computed from `hash_size² = 0` total bits would be 0 — the
claim's "still computed from hash_size² total bits" fails below
`hash_size = 1`. -/
theorem C10_counterexample :
    similarityBitThreshold ⟨0, 1, 1⟩ = 1
    ∧ claimedSimilarityBitThreshold ⟨0, 1, 1⟩ = 0 := by
  constructor
  · rw [simThresh_ratio_one]
    decide
  · unfold claimedSimilarityBitThreshold
    simp

/-! ### Claim C4 -/

/-- C4: reconciling a directory holding one original image, one
byte-identical copy of it, and one near-identical variant within the
(positive) similarity threshold leaves — in every scan order — exactly one
file and one index entry: the scan pass deletes the exact duplicate
(leaving two records and two files), the prune pass the near-duplicate. -/
theorem C4_reconciliation (cfg : Config) (o o2 v : ExistingFile) (l : List ExistingFile)
    (ho : o.hash_ok = true) (ho2 : o2.hash_ok = true) (hv : v.hash_ok = true)
    (hex : o2.exact_hash = o.exact_hash)
    (hvx : v.exact_hash ≠ o.exact_hash)
    (hph : o2.perceptual_hash = o.perceptual_hash)
    (hsim : areHashesSimilar cfg v.perceptual_hash o.perceptual_hash = true)
    (hp1 : o.path ≠ o2.path) (hp2 : o.path ≠ v.path) (hp3 : o2.path ≠ v.path)
    (horder : l = [o, o2, v] ∨ l = [o, v, o2] ∨ l = [o2, o, v] ∨ l = [o2, v, o]
      ∨ l = [v, o, o2] ∨ l = [v, o2, o]) :
    (l.foldl loadScanStep
        { initState with
          fs := { files := [o.path, o2.path, v.path], unlinkErr := fun _ => none } }
      ).saved_screenshots.length = 2
    ∧ (l.foldl loadScanStep
        { initState with
          fs := { files := [o.path, o2.path, v.path], unlinkErr := fun _ => none } }
      ).fs.files.length = 2
    ∧ (loadExistingHashes cfg
        { initState with
          fs := { files := [o.path, o2.path, v.path], unlinkErr := fun _ => none } }
        l).saved_screenshots.length = 1
    ∧ (loadExistingHashes cfg
        { initState with
          fs := { files := [o.path, o2.path, v.path], unlinkErr := fun _ => none } }
        l).fs.files.length = 1 := by
  have hsim2 : areHashesSimilar cfg o.perceptual_hash v.perceptual_hash = true := by
    rw [areHashesSimilar_comm]
    exact hsim
  have hvx2 : v.exact_hash ≠ o2.exact_hash := by rw [hex]; exact hvx
  have hovx : o.exact_hash ≠ v.exact_hash := Ne.symm hvx
  have ho2vx : o2.exact_hash ≠ v.exact_hash := Ne.symm hvx2
  have hp1s : o2.path ≠ o.path := Ne.symm hp1
  have hp2s : v.path ≠ o.path := Ne.symm hp2
  have hp3s : v.path ≠ o2.path := Ne.symm hp3
  have b1 : (v.exact_hash == o.exact_hash) = false := by simp [hvx]
  have b2 : (o.exact_hash == v.exact_hash) = false := by simp [hovx]
  have b3 : (v.exact_hash == o2.exact_hash) = false := by simp [hvx2]
  have b4 : (o2.exact_hash == v.exact_hash) = false := by simp [ho2vx]
  have b5 : (o2.exact_hash == o.exact_hash) = true := by simp [hex]
  have b6 : (o.exact_hash == o2.exact_hash) = true := by simp [hex]
  have q1 : (o.path == o2.path) = false := by simp [hp1]
  have q2 : (o2.path == o.path) = false := by simp [hp1s]
  have q3 : (o.path == v.path) = false := by simp [hp2]
  have q4 : (v.path == o.path) = false := by simp [hp2s]
  have q5 : (o2.path == v.path) = false := by simp [hp3]
  have q6 : (v.path == o2.path) = false := by simp [hp3s]
  rcases horder with h | h | h | h | h | h <;> subst h <;>
    simp [loadExistingHashes, loadScanStep, pruneExistingSimilarScreenshots,
      pruneMarkedAux, removeSavedScreenshots, removeOne, deleteFileSafely,
      initState, List.find?, List.erase_cons,
      ho, ho2, hv, hex, hph, hsim, hsim2,
      b1, b2, b3, b4, b5, b6, q1, q2, q3, q4, q5, q6]

/-- C4 witness: an original at path 0, a byte-identical copy at path 1, a
near-identical variant at path 2, change-ratio 1. -/
theorem C4_witness :
    ((ExistingFile.mk 0 true 10 3).hash_ok = true
      ∧ (ExistingFile.mk 1 true 10 3).hash_ok = true
      ∧ (ExistingFile.mk 2 true 11 3).hash_ok = true
      ∧ (ExistingFile.mk 1 true 10 3).exact_hash = (ExistingFile.mk 0 true 10 3).exact_hash
      ∧ (ExistingFile.mk 2 true 11 3).exact_hash ≠ (ExistingFile.mk 0 true 10 3).exact_hash
      ∧ (ExistingFile.mk 1 true 10 3).perceptual_hash
          = (ExistingFile.mk 0 true 10 3).perceptual_hash
      ∧ areHashesSimilar ⟨4, 1, 1⟩ (ExistingFile.mk 2 true 11 3).perceptual_hash
          (ExistingFile.mk 0 true 10 3).perceptual_hash = true
      ∧ ((0 : Nat) ≠ 1 ∧ (0 : Nat) ≠ 2 ∧ (1 : Nat) ≠ 2))
    ∧ (([ExistingFile.mk 0 true 10 3, ExistingFile.mk 1 true 10 3,
          ExistingFile.mk 2 true 11 3].foldl loadScanStep
          { initState with fs := { files := [0, 1, 2], unlinkErr := fun _ => none } }
        ).saved_screenshots.length = 2
      ∧ ([ExistingFile.mk 0 true 10 3, ExistingFile.mk 1 true 10 3,
          ExistingFile.mk 2 true 11 3].foldl loadScanStep
          { initState with fs := { files := [0, 1, 2], unlinkErr := fun _ => none } }
        ).fs.files.length = 2
      ∧ (loadExistingHashes ⟨4, 1, 1⟩
          { initState with fs := { files := [0, 1, 2], unlinkErr := fun _ => none } }
          [ExistingFile.mk 0 true 10 3, ExistingFile.mk 1 true 10 3,
            ExistingFile.mk 2 true 11 3]).saved_screenshots.length = 1
      ∧ (loadExistingHashes ⟨4, 1, 1⟩
          { initState with fs := { files := [0, 1, 2], unlinkErr := fun _ => none } }
          [ExistingFile.mk 0 true 10 3, ExistingFile.mk 1 true 10 3,
            ExistingFile.mk 2 true 11 3]).fs.files.length = 1) :=
  ⟨⟨rfl, rfl, rfl, rfl, by decide, rfl,
      by simp only [areHashesSimilar, simThresh_ratio_one]; decide,
      by decide, by decide, by decide⟩,
    C4_reconciliation ⟨4, 1, 1⟩ (ExistingFile.mk 0 true 10 3) (ExistingFile.mk 1 true 10 3)
      (ExistingFile.mk 2 true 11 3)
      [ExistingFile.mk 0 true 10 3, ExistingFile.mk 1 true 10 3, ExistingFile.mk 2 true 11 3]
      rfl rfl rfl rfl (by decide) rfl
      (by simp only [areHashesSimilar, simThresh_ratio_one]; decide)
      (by decide) (by decide) (by decide) (Or.inl rfl)⟩

end ZoomCapture
